import Mathlib

/-!
Verification of the learning and decision subsystem of the invoice
document-processing repository.  The TypeScript sources are shallowly
embedded: JS runtime values become the inductive type `Val`, JS objects
and Maps become association lists, SQLite-backed stores become explicit
state values, and the ambient clock / hash / regex engine become explicit
parameters.  Every definition is translated from the corresponding
function in the source tree (file and function named in its doc comment).
-/

namespace DocProc

/-- Model of a JavaScript runtime value as used by the invoice pipeline.
JSON data (invoices, rule payloads) uses the first seven constructors;
`nan` models the JS NaN number that can arise during rule arithmetic.
Numbers are modelled as rationals. -/
inductive Val where
  | undefined
  | null
  | bool (b : Bool)
  | num (q : ℚ)
  | str (s : String)
  | arr (xs : List Val)
  | obj (kvs : List (String × Val))
  | nan
deriving Repr

mutual

/-- Structural equality on `Val`, modelling the deep comparisons performed
on JSON records (the diffed records never contain `nan`, so `nan == nan`
being `true` here is unobservable). -/
def Val.beq : Val → Val → Bool
  | .undefined, .undefined => true
  | .null, .null => true
  | .bool a, .bool b => a == b
  | .num a, .num b => a == b
  | .str a, .str b => a == b
  | .arr a, .arr b => Val.beqList a b
  | .obj a, .obj b => Val.beqObj a b
  | .nan, .nan => true
  | _, _ => false

/-- Elementwise structural equality on arrays of values. -/
def Val.beqList : List Val → List Val → Bool
  | [], [] => true
  | x :: xs, y :: ys => Val.beq x y && Val.beqList xs ys
  | _, _ => false

/-- Keywise structural equality on object entry lists. -/
def Val.beqObj : List (String × Val) → List (String × Val) → Bool
  | [], [] => true
  | (k, v) :: xs, (l, w) :: ys => k == l && Val.beq v w && Val.beqObj xs ys
  | _, _ => false

end

mutual

theorem Val.beq_refl : (v : Val) → Val.beq v v = true
  | .undefined => rfl
  | .null => rfl
  | .bool b => by simp [Val.beq]
  | .num q => by simp [Val.beq]
  | .str s => by simp [Val.beq]
  | .arr xs => by
      simp only [Val.beq]
      exact Val.beqList_refl xs
  | .obj kvs => by
      simp only [Val.beq]
      exact Val.beqObj_refl kvs
  | .nan => rfl

theorem Val.beqList_refl : (xs : List Val) → Val.beqList xs xs = true
  | [] => rfl
  | x :: xs => by
      simp only [Val.beqList, Bool.and_eq_true]
      exact ⟨Val.beq_refl x, Val.beqList_refl xs⟩

theorem Val.beqObj_refl : (kvs : List (String × Val)) → Val.beqObj kvs kvs = true
  | [] => rfl
  | (k, v) :: kvs => by
      simp only [Val.beqObj, Bool.and_eq_true]
      exact ⟨⟨by simp, Val.beq_refl v⟩, Val.beqObj_refl kvs⟩

end

/-- Whether a value is the JS `undefined`. -/
def Val.isUndefined : Val → Bool
  | .undefined => true
  | _ => false

/-- JavaScript truthiness: `undefined`, `null`, `false`, `0`, `NaN` and the
empty string are falsy; all other values (including every array and
object) are truthy. -/
def Val.truthy : Val → Bool
  | .undefined => false
  | .null => false
  | .bool b => b
  | .num q => q != 0
  | .str s => s ≠ ""
  | .arr _ => true
  | .obj _ => true
  | .nan => false

/-- JS string conversion for the value shapes that reach template strings
in the pipeline (vendor names, invoice numbers, dates, amounts).  Rational
numbers are rendered with the standard rational printer; consistency, not
JS digit-for-digit fidelity, is what the theorems rely on. -/
def Val.toDisplay : Val → String
  | .undefined => "undefined"
  | .null => "null"
  | .bool b => if b then "true" else "false"
  | .num q => toString q
  | .str s => s
  | .arr _ => ""
  | .obj _ => "[object Object]"
  | .nan => "NaN"

/-- JS `String.prototype.includes`: substring containment. -/
def strIncludes (s pat : String) : Bool :=
  decide (pat.toList <:+: s.toList)

/-- First value bound to `k` in an association list (JS object / Map read,
keys are unique by construction). -/
def alookup {α : Type} : List (String × α) → String → Option α
  | [], _ => none
  | (k, v) :: rest, key => if k = key then some v else alookup rest key

/-- JS object / Map write: replace the existing binding in place, else
append (preserves insertion order of keys). -/
def aset {α : Type} : List (String × α) → String → α → List (String × α)
  | [], key, value => [(key, value)]
  | (k, v) :: rest, key, value =>
      if k = key then (k, value) :: rest else (k, v) :: aset rest key value

theorem alookup_aset_self {α : Type} (m : List (String × α)) (k : String) (v : α) :
    alookup (aset m k v) k = some v := by
  induction m with
  | nil => simp [aset, alookup]
  | cons kv rest ih =>
      obtain ⟨k₁, v₁⟩ := kv
      by_cases h : k₁ = k
      · simp [aset, alookup, h]
      · simp [aset, alookup, h, ih]

theorem alookup_aset_ne {α : Type} (m : List (String × α)) (k k₂ : String) (v : α)
    (h : k₂ ≠ k) : alookup (aset m k v) k₂ = alookup m k₂ := by
  induction m with
  | nil => simp [aset, alookup, Ne.symm h]
  | cons kv rest ih =>
      obtain ⟨k₁, v₁⟩ := kv
      by_cases h₁ : k₁ = k
      · subst h₁
        simp [aset, alookup, Ne.symm h]
      · simp only [aset, if_neg h₁]
        by_cases h₂ : k₁ = k₂
        · simp [alookup, h₂]
        · simp [alookup, h₂, ih]

/-- Every entry of an `aset`-updated list is either the new binding or an
entry of the original list. -/
theorem mem_aset {α : Type} (m : List (String × α)) (k : String) (v : α) (e : String × α) :
    e ∈ aset m k v → e = (k, v) ∨ e ∈ m := by
  induction m with
  | nil =>
      intro h
      simp only [aset, List.mem_singleton] at h
      exact Or.inl h
  | cons kv rest ih =>
      intro h
      obtain ⟨k₁, v₁⟩ := kv
      by_cases h₁ : k₁ = k
      · subst h₁
        simp only [aset, if_pos rfl] at h
        rcases List.mem_cons.mp h with h₂ | h₂
        · exact Or.inl h₂
        · exact Or.inr (List.mem_cons_of_mem _ h₂)
      · simp only [aset, if_neg h₁] at h
        rcases List.mem_cons.mp h with h₂ | h₂
        · exact Or.inr (by simp [h₂])
        · rcases ih h₂ with h₃ | h₃
          · exact Or.inl h₃
          · exact Or.inr (List.mem_cons_of_mem _ h₃)

/-! ## The rule expression language (src/src/core/logic/engine.ts)

The repository interprets json-logic-js rule payloads extended with the
custom operations registered in engine.ts.  The payloads synthesised and
executed by this repository are built exclusively from the constructors
below (createRegexRule, createMapRule, createArithmeticRule and the
induced trigger conditions); `unknownOp` models any other operation name,
on which json-logic-js throws.  The two date-normalisation primitives are
orthogonal to every claim and are not modelled. -/

/-- Match function of a compiled JS regular expression (`i` flag): `none`
means no match; `some groups` gives the full match at index 0 and the
capture groups at indices 1..; a group that did not participate is
`none`. -/
abbrev RegexMatcher : Type := String → Option (List (Option String))

/-- The external JS `RegExp` engine.  `compile` returns `none` exactly
when `new RegExp(pattern, 'i')` throws on a malformed pattern.  All
theorems quantify over the oracle, so they hold for every behaviour of
the real engine. -/
structure RegexOracle where
  compile : String → Option RegexMatcher

/-- Rule expression AST (the json-logic payload shape used by this
repository). -/
inductive Expr where
  | lit (v : Val)
  | varE (name : String)
  | andE (args : List Expr)
  | eqE (a b : Expr)
  | gtE (a b : Expr)
  | subE (a b : Expr)
  | mulE (a b : Expr)
  | divE (a b : Expr)
  | ifE (c t e : Expr)
  | regexExtractE (pattern text : Expr) (group : ℕ)
  | regexTestE (pattern text : Expr)
  | mapDescriptionE (descr : Expr) (mapping : List (String × String))
  | containsIgnoreCaseE (text search : Expr)
  | unknownOp (name : String) (args : List Expr)
deriving Repr

mutual

/-- JSON serialisation of a literal, as produced by `JSON.stringify`
(string escaping is elided: the serialised form is only ever inspected
for field-name substrings). -/
def Val.jsonStr : Val → String
  | .undefined => "null"
  | .null => "null"
  | .bool b => if b then "true" else "false"
  | .num q => toString q
  | .str s => "\"" ++ s ++ "\""
  | .arr xs => "[" ++ Val.jsonStrList xs ++ "]"
  | .obj kvs => "\x7b" ++ Val.jsonStrObj kvs ++ "\x7d"
  | .nan => "null"

/-- Comma-separated serialisation of array elements. -/
def Val.jsonStrList : List Val → String
  | [] => ""
  | [x] => Val.jsonStr x
  | x :: xs => Val.jsonStr x ++ "," ++ Val.jsonStrList xs

/-- Comma-separated serialisation of object entries. -/
def Val.jsonStrObj : List (String × Val) → String
  | [] => ""
  | [(k, v)] => "\"" ++ k ++ "\":" ++ Val.jsonStr v
  | (k, v) :: kvs => "\"" ++ k ++ "\":" ++ Val.jsonStr v ++ "," ++ Val.jsonStrObj kvs

end

/-- Serialisation of a string-to-string lookup table. -/
def mappingJsonStr : List (String × String) → String
  | [] => ""
  | [(k, v)] => "\"" ++ k ++ "\":\"" ++ v ++ "\""
  | (k, v) :: kvs => "\"" ++ k ++ "\":\"" ++ v ++ "\"," ++ mappingJsonStr kvs

mutual

/-- `JSON.stringify` of a rule payload, used by
`CognitiveEngine.extractFieldFromAction` for substring-based field
inference. -/
def Expr.stringify : Expr → String
  | .lit v => v.jsonStr
  | .varE name => "\x7b\"var\":\"" ++ name ++ "\"\x7d"
  | .andE args => "\x7b\"and\":[" ++ Expr.stringifyList args ++ "]\x7d"
  | .eqE a b => "\x7b\"==\":[" ++ a.stringify ++ "," ++ b.stringify ++ "]\x7d"
  | .gtE a b => "\x7b\">\":[" ++ a.stringify ++ "," ++ b.stringify ++ "]\x7d"
  | .subE a b => "\x7b\"-\":[" ++ a.stringify ++ "," ++ b.stringify ++ "]\x7d"
  | .mulE a b => "\x7b\"*\":[" ++ a.stringify ++ "," ++ b.stringify ++ "]\x7d"
  | .divE a b => "\x7b\"/\":[" ++ a.stringify ++ "," ++ b.stringify ++ "]\x7d"
  | .ifE c t e =>
      "\x7b\"if\":[" ++ c.stringify ++ "," ++ t.stringify ++ "," ++ e.stringify ++ "]\x7d"
  | .regexExtractE p t g =>
      "\x7b\"regexExtract\":[" ++ p.stringify ++ "," ++ t.stringify ++ "," ++ toString g ++ "]\x7d"
  | .regexTestE p t =>
      "\x7b\"regexTest\":[" ++ p.stringify ++ "," ++ t.stringify ++ "]\x7d"
  | .mapDescriptionE d mapping =>
      "\x7b\"mapDescription\":[" ++ d.stringify ++ ",\x7b" ++ mappingJsonStr mapping ++ "\x7d]\x7d"
  | .containsIgnoreCaseE t s =>
      "\x7b\"containsIgnoreCase\":[" ++ t.stringify ++ "," ++ s.stringify ++ "]\x7d"
  | .unknownOp name args => "\x7b\"" ++ name ++ "\":[" ++ Expr.stringifyList args ++ "]\x7d"

/-- Serialisation of an argument list. -/
def Expr.stringifyList : List Expr → String
  | [] => ""
  | [x] => x.stringify
  | x :: xs => x.stringify ++ "," ++ Expr.stringifyList xs

end

/-- json-logic-js truthiness: like JS truthiness except that an empty
array is falsy. -/
def jlTruthy : Val → Bool
  | .arr xs => !xs.isEmpty
  | v => v.truthy

/-- Simplified JS numeric coercion (`none` is NaN).  Strings are parsed
as optionally signed decimal literals; the exotic JS corner cases
(whitespace handling, hex forms, array coercion) never arise in the
rules of this repository. -/
def jsToNumber : Val → Option ℚ
  | .num q => some q
  | .null => some 0
  | .bool b => some (if b then 1 else 0)
  | .str s => parseDecimal s
  | _ => none
where
  /-- Parse an optionally signed decimal numeral; empty string is 0
  (JS `Number("")`). -/
  parseDecimal (s : String) : Option ℚ :=
    if s = "" then some 0
    else
      let (neg, body) :=
        match s.toList with
        | '-' :: rest => (true, rest)
        | cs => (false, cs)
      let intPart := body.takeWhile Char.isDigit
      let rest := body.drop intPart.length
      let (fracPart, tail) :=
        match rest with
        | '.' :: more => (more.takeWhile Char.isDigit, more.drop (more.takeWhile Char.isDigit).length)
        | other => ([], other)
      if body.isEmpty ∨ (intPart.isEmpty ∧ fracPart.isEmpty) ∨ ¬tail.isEmpty then none
      else
        let digitsToNat : List Char → ℕ := fun ds => ds.foldl (fun n c => 10 * n + (c.toNat - 48)) 0
        let mag : ℚ := digitsToNat intPart +
          (digitsToNat fracPart : ℚ) / (10 ^ fracPart.length : ℚ)
        some (if neg then -mag else mag)

/-- json-logic loose equality (`==`) restricted to the value shapes the
rules compare (numbers, strings, booleans, null). -/
def jsLooseEq (a b : Val) : Bool :=
  match a, b with
  | .num x, .num y => x == y
  | .str x, .str y => x == y
  | .bool x, .bool y => x == y
  | .null, .null => true
  | .undefined, .undefined => true
  | .null, .undefined => true
  | .undefined, .null => true
  | .num _, .str _ => jsToNumber a == jsToNumber b && (jsToNumber a).isSome
  | .str _, .num _ => jsToNumber a == jsToNumber b && (jsToNumber a).isSome
  | .bool _, _ => jsToNumber a == jsToNumber b && (jsToNumber a).isSome
  | _, .bool _ => jsToNumber a == jsToNumber b && (jsToNumber a).isSome
  | _, _ => false

/-- json-logic `>` via numeric coercion (string-vs-string comparison is
lexicographic in JS; the rules only ever compare numbers). -/
def jsGt (a b : Val) : Bool :=
  match a, b with
  | .str x, .str y => decide (y < x)
  | _, _ =>
      match jsToNumber a, jsToNumber b with
      | some x, some y => decide (y < x)
      | _, _ => false

/-- JS arithmetic on coerced numbers; a NaN operand yields NaN.  Division
by zero is modelled as NaN (JS yields Infinity; the rules of this
repository only divide by the literal 1.19). -/
def jsArith (f : ℚ → ℚ → ℚ) (a b : Val) : Val :=
  match jsToNumber a, jsToNumber b with
  | some x, some y => .num (f x y)
  | _, _ => .nan

/-- Custom operation `regexExtract` (engine.ts): null on falsy pattern or
text, on a malformed pattern (the caught RegExp construction error), on a
non-string subject (the caught TypeError from `text.match`), on no match,
and on an absent or empty capture (`match[groupIndex] || null`). -/
def regexExtractOp (o : RegexOracle) (pattern text : Val) (group : ℕ) : Val :=
  if !text.truthy || !pattern.truthy then Val.null
  else
    match o.compile pattern.toDisplay with
    | none => Val.null
    | some m =>
        match text with
        | .str t =>
            match m t with
            | none => Val.null
            | some groups =>
                match groups.getD group none with
                | some s => if s = "" then Val.null else Val.str s
                | none => Val.null
        | _ => Val.null

/-- Custom operation `regexTest` (engine.ts): false on falsy pattern or
text and on a malformed pattern; otherwise whether the regex matches the
coerced subject. -/
def regexTestOp (o : RegexOracle) (pattern text : Val) : Bool :=
  if !text.truthy || !pattern.truthy then false
  else
    match o.compile pattern.toDisplay with
    | none => false
    | some m => (m text.toDisplay).isSome

/-- First key of the lookup table whose lowercased form equals the
normalised description (exact-match pass of `mapDescription`). -/
def mapLookupExact (normalized : String) : List (String × String) → Option String
  | [] => none
  | (k, v) :: rest =>
      if normalized = k.toLower then some v else mapLookupExact normalized rest

/-- First key of the lookup table whose lowercased form is contained in
the normalised description (partial-match pass of `mapDescription`). -/
def mapLookupSub (normalized : String) : List (String × String) → Option String
  | [] => none
  | (k, v) :: rest =>
      if strIncludes normalized k.toLower then some v else mapLookupSub normalized rest

/-- Custom operation `mapDescription` (engine.ts): null on a falsy
description; otherwise exact case-insensitive match first, then first
substring-containment match in insertion order, else null. -/
def mapDescriptionOp (normalized : String) (mapping : List (String × String)) : Val :=
  match mapLookupExact normalized mapping with
  | some v => .str v
  | none =>
      match mapLookupSub normalized mapping with
      | some v => .str v
      | none => .null

/-- json-logic `var` lookup: dot-separated path into the data record;
a missing path yields the default null. -/
def varLookup (name : String) (data : Val) : Val :=
  let path := if name = "" then [] else name.splitOn "."
  let rec go : List String → Val → Val
    | [], v => v
    | p :: ps, .obj kvs =>
        match alookup kvs p with
        | some v => go ps v
        | none => .undefined
    | p :: ps, .arr xs =>
        match p.toNat? with
        | some i => match xs.get? i with
          | some v => go ps v
          | none => .undefined
        | none => .undefined
    | _ :: _, _ => .undefined
  match go path data with
  | .undefined => .null
  | v => v

mutual

/-- Interpreter for json-logic-js (`jsonLogic.apply`) on the operations
used by this repository; an `Except.error` models a thrown JS exception.
-/
def evalRule (o : RegexOracle) : Expr → Val → Except String Val
  | .lit v, _ => .ok v
  | .varE name, data => .ok (varLookup name data)
  | .andE args, data => evalAnd o args data
  | .eqE a b, data => do
      let va ← evalRule o a data
      let vb ← evalRule o b data
      .ok (Val.bool (jsLooseEq va vb))
  | .gtE a b, data => do
      let va ← evalRule o a data
      let vb ← evalRule o b data
      .ok (Val.bool (jsGt va vb))
  | .subE a b, data => do
      let va ← evalRule o a data
      let vb ← evalRule o b data
      .ok (jsArith (fun x y => x - y) va vb)
  | .mulE a b, data => do
      let va ← evalRule o a data
      let vb ← evalRule o b data
      .ok (jsArith (fun x y => x * y) va vb)
  | .divE a b, data => do
      let va ← evalRule o a data
      let vb ← evalRule o b data
      .ok (match jsToNumber va, jsToNumber vb with
        | some x, some y => if y = 0 then Val.nan else Val.num (x / y)
        | _, _ => Val.nan)
  | .ifE c t e, data => do
      let vc ← evalRule o c data
      if jlTruthy vc then evalRule o t data else evalRule o e data
  | .regexExtractE p t g, data => do
      let vp ← evalRule o p data
      let vt ← evalRule o t data
      .ok (regexExtractOp o vp vt g)
  | .regexTestE p t, data => do
      let vp ← evalRule o p data
      let vt ← evalRule o t data
      .ok (Val.bool (regexTestOp o vp vt))
  | .mapDescriptionE d mapping, data => do
      let vd ← evalRule o d data
      if !vd.truthy then .ok Val.null
      else
        match vd with
        | .str s => .ok (mapDescriptionOp s.toLower.trim mapping)
        | _ => .error "TypeError: description.toLowerCase is not a function"
  | .containsIgnoreCaseE t s, data => do
      let vt ← evalRule o t data
      let vs ← evalRule o s data
      if !vt.truthy || !vs.truthy then .ok (Val.bool false)
      else
        match vt, vs with
        | .str a, .str b => .ok (Val.bool (strIncludes a.toLower b.toLower))
        | _, _ => .error "TypeError: toLowerCase is not a function"
  | .unknownOp name args, data => do
      let _ ← evalArgs o args data
      .error ("Unrecognized operation " ++ name)

/-- Lazy json-logic `and`: first falsy argument value, else the last
(undefined on an empty argument list). -/
def evalAnd (o : RegexOracle) : List Expr → Val → Except String Val
  | [], _ => .ok .undefined
  | [a], data => evalRule o a data
  | a :: rest, data => do
      let v ← evalRule o a data
      if jlTruthy v then evalAnd o rest data else .ok v

/-- Strict evaluation of an argument list. -/
def evalArgs (o : RegexOracle) : List Expr → Val → Except String (List Val)
  | [], _ => .ok []
  | a :: rest, data => do
      let v ← evalRule o a data
      let vs ← evalArgs o rest data
      .ok (v :: vs)

end

/-- `executeRule` (engine.ts lines 128-135): run the rule and convert any
thrown evaluation error into null. -/
def executeRule (o : RegexOracle) (rule : Expr) (data : Val) : Val :=
  match evalRule o rule data with
  | .ok v => v
  | .error _ => Val.null

/-- `createRegexRule` (engine.ts): a regexExtract payload reading its
subject from `sourceField`. -/
def createRegexRule (pattern : String) (sourceField : String) (groupIndex : ℕ) : Expr :=
  .regexExtractE (.lit (.str pattern)) (.varE sourceField) groupIndex

/-- `createMapRule` (engine.ts): a mapDescription payload reading its
subject from `sourceField`. -/
def createMapRule (mapping : List (String × String)) (sourceField : String) : Expr :=
  .mapDescriptionE (.varE sourceField) mapping

/-- `createArithmeticRule` (engine.ts): the three fixed VAT formulas;
an unknown formula name yields null (modelled as a null literal, the
callers never pass one). -/
def createArithmeticRule (formula : String) (sourceField : String) : Expr :=
  if formula = "inclusive_vat_19" then
    .subE (.varE sourceField) (.divE (.varE sourceField) (.lit (.num (119/100))))
  else if formula = "exclusive_vat_19" then
    .mulE (.varE sourceField) (.lit (.num (19/100)))
  else if formula = "net_from_gross_19" then
    .divE (.varE sourceField) (.lit (.num (119/100)))
  else
    .lit .null

/-! ## Data model (src/src/types, src/src/core/memory/store.ts) -/

/-- Resolution outcome recorded for a rule application. -/
inductive Outcome where
  | ACCEPTED
  | REJECTED
  | MODIFIED
deriving Repr, DecidableEq

/-- One bounded-history record of a `ResolutionMemory`. -/
structure HistoryEntry where
  invoiceId : String
  outcome : Outcome
  timestamp : String
deriving Repr, DecidableEq

/-- Per-rule reinforcement record. -/
structure ResolutionMemory where
  ruleId : String
  totalApplications : ℕ
  acceptedCount : ℕ
  rejectedCount : ℕ
  lastUsed : Option String := none
  history : List HistoryEntry := []
deriving Repr

/-- Learned per-vendor extraction pattern. -/
structure VendorPattern where
  ruleType : String
  logic : Expr
  confidence : ℚ
  sampleEvidence : Option String := none
  createdAt : String := ""
  lastUsed : Option String := none
deriving Repr

/-- Per-vendor memory record. -/
structure VendorMemory where
  id : String
  vendorName : String
  fingerprints : List String := []
  defaults : List (String × Val) := []
  patterns : List (String × VendorPattern) := []
  createdAt : String := ""
  updatedAt : String := ""
deriving Repr

/-- Global (vendor-independent) correction rule. -/
structure CorrectionMemory where
  id : String
  triggerCondition : Expr
  action : Expr
  description : String
  confidence : ℚ
  decayFactor : ℚ := 95/100
  createdAt : String := ""
  lastUsed : Option String := none
deriving Repr

/-- Invoice record.  Optional fields use `Val` so that the JS distinction
between an absent key (`undefined`), an explicit null, and a present value is
preserved; `vendor`, `invoiceNumber`, `id` and `rawText` are mandatory
strings in the schema. -/
structure Invoice where
  id : String
  vendor : String
  invoiceNumber : String
  date : Val := Val.undefined
  serviceDate : Val := Val.undefined
  dueDate : Val := Val.undefined
  totalAmount : Val := Val.undefined
  taxAmount : Val := Val.undefined
  netAmount : Val := Val.undefined
  currency : Val := Val.undefined
  lineItems : Val := Val.undefined
  paymentTerms : Val := Val.undefined
  poNumber : Val := Val.undefined
  rawText : String := ""
deriving Repr

/-- Dynamic field read `(invoice as any)[field]` for the merge loop of
`DecisionEngine.decide`. -/
def Invoice.get (inv : Invoice) : String → Val
  | "date" => inv.date
  | "serviceDate" => inv.serviceDate
  | "dueDate" => inv.dueDate
  | "totalAmount" => inv.totalAmount
  | "taxAmount" => inv.taxAmount
  | "netAmount" => inv.netAmount
  | "currency" => inv.currency
  | "lineItems" => inv.lineItems
  | "paymentTerms" => inv.paymentTerms
  | "poNumber" => inv.poNumber
  | _ => Val.undefined

/-- The invoice as the JS data record passed to `jsonLogic.apply`
(absent optional keys are omitted, as after zod parsing). -/
def Invoice.toVal (inv : Invoice) : Val :=
  .obj ([("id", Val.str inv.id), ("vendor", Val.str inv.vendor),
    ("invoiceNumber", Val.str inv.invoiceNumber)] ++
    (["date", "serviceDate", "dueDate", "totalAmount", "taxAmount",
      "netAmount", "currency", "lineItems", "paymentTerms", "poNumber"].filterMap
      (fun f => match inv.get f with
        | .undefined => none
        | v => some (f, v))) ++
    [("rawText", Val.str inv.rawText)])

/-- One proposed output field value with its confidence. -/
structure FieldConfidence where
  field : String
  value : Val
  confidence : ℚ
  source : String
  ruleId : Option String := none
  reasoning : String := ""
deriving Repr

/-- One append-only audit trail record. -/
structure AuditEntry where
  step : String
  action : String
  field : Option String := none
  newValue : Option Val := none
  reasoning : String := ""
  confidence : Option ℚ := none
  timestamp : String := ""
deriving Repr

/-- Ephemeral per-invoice processing context. -/
structure ProcessingContext where
  invoice : Invoice
  vendorMemory : Option VendorMemory := none
  correctionMemories : List CorrectionMemory := []
  resolutionMemories : List (String × ResolutionMemory) := []
  auditTrail : List AuditEntry := []
deriving Repr

/-! ## MemoryStore resolution and duplicate operations
(src/src/core/memory/store.ts) -/

/-- The `resolution_memories` table, keyed by rule id. -/
abbrev ResolutionStore : Type := List (String × ResolutionMemory)

/-- `MemoryStore.getResolutionMemory` (store.ts lines 259-282): never
reports absence — an unknown rule id yields the all-zero default with
empty history. -/
def getResolutionMemory (st : ResolutionStore) (ruleId : String) : ResolutionMemory :=
  match alookup st ruleId with
  | none =>
      { ruleId := ruleId, totalApplications := 0, acceptedCount := 0,
        rejectedCount := 0, lastUsed := none, history := [] }
  | some m => m

/-- The appended and capped history list of `recordResolution`
(`history.push` followed by `slice(-100)` when over 100 entries). -/
def cappedHistory (old : List HistoryEntry) (entry : HistoryEntry) : List HistoryEntry :=
  if (old ++ [entry]).length > 100 then
    (old ++ [entry]).drop ((old ++ [entry]).length - 100)
  else old ++ [entry]

/-- `MemoryStore.recordResolution` (store.ts lines 287-314): increment the
counters, stamp `lastUsed`, append to the history and keep only the most
recent 100 entries (`history.slice(-100)`). -/
def recordResolution (st : ResolutionStore) (ruleId invoiceId : String)
    (outcome : Outcome) (now : String) : ResolutionStore :=
  let memory := getResolutionMemory st ruleId
  let memory :=
    { memory with
      totalApplications := memory.totalApplications + 1
      acceptedCount :=
        if outcome = Outcome.ACCEPTED then memory.acceptedCount + 1
        else memory.acceptedCount
      rejectedCount :=
        if outcome = Outcome.REJECTED then memory.rejectedCount + 1
        else memory.rejectedCount
      lastUsed := some now
      history := cappedHistory memory.history
        { invoiceId := invoiceId, outcome := outcome, timestamp := now } }
  aset st ruleId memory

/-- The `processed_invoices` table reduced to its primary key, the set of
recorded fingerprints. -/
abbrev ProcessedStore : Type := List String

/-- `MemoryStore.generateInvoiceFingerprint` (store.ts lines 323-331):
the sha256 of `vendor|invoiceNumber|date||totalAmount||0` with falsy
date and totalAmount coalesced.  The hash is modelled as the identity on
its input string: the theorems only use that equal tuples produce equal
fingerprints. -/
def generateInvoiceFingerprint (vendor invoiceNumber : String)
    (date totalAmount : Val) : String :=
  vendor ++ "|" ++ invoiceNumber ++ "|" ++
    (if date.truthy then date.toDisplay else "") ++ "|" ++
    (if totalAmount.truthy then totalAmount.toDisplay else "0")

/-- `MemoryStore.isDuplicate` (store.ts lines 336-340). -/
def isDuplicate (st : ProcessedStore) (fingerprint : String) : Bool :=
  st.contains fingerprint

/-- `MemoryStore.recordProcessedInvoice` (store.ts lines 345-366):
`INSERT OR REPLACE` keyed by the fingerprint. -/
def recordProcessedInvoice (st : ProcessedStore) (fingerprint : String) : ProcessedStore :=
  if st.contains fingerprint then st else fingerprint :: st

/-! ## Cognitive engine (the CognitiveEngine class, second file inside
src/src/utils/diff.ts) -/

/-- `CognitiveEngine.calculateConfidence` (diff.ts lines 210-236).  The
ambient clock and the date-difference helper of the source are explicit
parameters; `daysBetween lu now` is the (non-negative, floored) day count
of `utils/date.ts`. -/
def calculateConfidence (baseConfidence : ℚ) (resolution : Option ResolutionMemory)
    (lastUsed : Option String) (daysBetween : String → String → ℕ) (now : String) : ℚ :=
  match resolution with
  | none => baseConfidence * (8/10)
  | some r =>
      if r.totalApplications = 0 then baseConfidence * (8/10)
      else
        let memoryConfidence : ℚ :=
          ((r.acceptedCount : ℚ) + 1) / ((r.totalApplications : ℚ) + 2)
        let decayFactor : ℚ :=
          match lastUsed with
          | none => 1
          | some lu => (99/100) ^ (daysBetween lu now)
        let alpha : ℚ := 6/10
        max (1/10) ((alpha * baseConfidence + (1 - alpha) * memoryConfidence) * decayFactor)

/-- `CognitiveEngine.extractFieldFromAction` (diff.ts lines 241-251):
substring search over the serialised action, tax before net before
total. -/
def extractFieldFromAction (action : Expr) : Option String :=
  let actionStr := action.stringify
  if strIncludes actionStr "taxAmount" || strIncludes actionStr "tax" then some "taxAmount"
  else if strIncludes actionStr "netAmount" || strIncludes actionStr "net" then some "netAmount"
  else if strIncludes actionStr "totalAmount" || strIncludes actionStr "total" then some "totalAmount"
  else none

/-- Proposal map plus audit trail, the state threaded through the three
passes of `CognitiveEngine.apply`. -/
structure ApplyState where
  proposals : List (String × FieldConfidence)
  auditTrail : List AuditEntry
deriving Repr

/-- Pass 1 of `CognitiveEngine.apply` for one `(field, pattern)` vendor
entry (diff.ts lines 93-128). -/
def applyVendorPatternStep (o : RegexOracle) (inv : Invoice) (vm : VendorMemory)
    (resolutions : List (String × ResolutionMemory))
    (daysBetween : String → String → ℕ) (now : String)
    (st : ApplyState) (entry : String × VendorPattern) : ApplyState :=
  let (field, pattern) := entry
  let result := executeRule o pattern.logic inv.toVal
  match result with
  | .null => st
  | .undefined => st
  | _ =>
      let patternId := vm.id ++ "-" ++ field
      let resolution := alookup resolutions patternId
      let confidence := calculateConfidence pattern.confidence resolution pattern.lastUsed
        daysBetween now
      { proposals := aset st.proposals field
          { field := field, value := result, confidence := confidence,
            source := "VENDOR_PATTERN", ruleId := some patternId,
            reasoning := "Applied vendor pattern for \"" ++ vm.vendorName ++ "\"" }
        auditTrail := st.auditTrail ++
          [{ step := "APPLY", action := "VENDOR_PATTERN", field := some field,
             newValue := some result,
             reasoning := "Extracted using vendor pattern",
             confidence := some confidence, timestamp := now }] }

/-- Pass 2 of `CognitiveEngine.apply` for one vendor default entry
(diff.ts lines 131-153). -/
def applyVendorDefaultStep (now : String) (st : ApplyState) (entry : String × Val) :
    ApplyState :=
  let (field, value) := entry
  if (alookup st.proposals field).isNone && value.truthy then
    { proposals := aset st.proposals field
        { field := field, value := value, confidence := 9/10,
          source := "VENDOR_PATTERN", ruleId := none,
          reasoning := "Applied vendor default value" }
      auditTrail := st.auditTrail ++
        [{ step := "APPLY", action := "VENDOR_DEFAULT", field := some field,
           newValue := some value, reasoning := "Applied vendor default value",
           confidence := some (9/10), timestamp := now }] }
  else st

/-- Pass 3 of `CognitiveEngine.apply` for one global correction rule
(diff.ts lines 155-202). -/
def applyCorrectionStep (o : RegexOracle) (inv : Invoice)
    (resolutions : List (String × ResolutionMemory))
    (daysBetween : String → String → ℕ) (now : String)
    (st : ApplyState) (c : CorrectionMemory) : ApplyState :=
  let triggered := executeRule o c.triggerCondition inv.toVal
  if triggered.truthy then
    let result := executeRule o c.action inv.toVal
    match result with
    | .null => st
    | .undefined => st
    | _ =>
        match extractFieldFromAction c.action with
        | none => st
        | some field =>
            let existing := alookup st.proposals field
            if (match existing with
                | none => true
                | some e => e.confidence < c.confidence) then
              let resolution := alookup resolutions c.id
              let confidence := calculateConfidence c.confidence resolution c.lastUsed
                daysBetween now
              { proposals := aset st.proposals field
                  { field := field, value := result, confidence := confidence,
                    source := "CORRECTION_RULE", ruleId := some c.id,
                    reasoning := c.description }
                auditTrail := st.auditTrail ++
                  [{ step := "APPLY", action := "CORRECTION_RULE", field := some field,
                     newValue := some result, reasoning := c.description,
                     confidence := some confidence, timestamp := now }] }
            else st
  else st

/-- `CognitiveEngine.apply` (diff.ts lines 88-205): three ordered passes
producing the proposal map (and the audit entries pushed while doing
so). -/
def cognitiveApply (o : RegexOracle) (ctx : ProcessingContext)
    (daysBetween : String → String → ℕ) (now : String) : ApplyState :=
  let st : ApplyState := { proposals := [], auditTrail := ctx.auditTrail }
  let st :=
    match ctx.vendorMemory with
    | none => st
    | some vm =>
        let st := vm.patterns.foldl
          (applyVendorPatternStep o ctx.invoice vm ctx.resolutionMemories daysBetween now) st
        vm.defaults.foldl (applyVendorDefaultStep now) st
  ctx.correctionMemories.foldl
    (applyCorrectionStep o ctx.invoice ctx.resolutionMemories daysBetween now) st

/-! ## Decision engine (the DecisionEngine class, second file inside
src/demo/runner.ts) -/

/-- JS `Number.prototype.toFixed(2)`, used only inside reasoning
strings. -/
def qToFixed2 (q : ℚ) : String :=
  let n : ℤ := round (q * 100)
  let m := n.natAbs
  (if n < 0 then "-" else "") ++ toString (m / 100) ++ "." ++
    (if m % 100 < 10 then "0" else "") ++ toString (m % 100)

/-- The fixed field set merged from the raw invoice by
`DecisionEngine.decide`. -/
def decideFields : List String :=
  ["date", "serviceDate", "dueDate", "totalAmount", "taxAmount",
   "netAmount", "currency", "lineItems", "paymentTerms", "poNumber"]

/-- One proposal-application step of `DecisionEngine.decide`:
`output[field] = proposal.value; confidences.push(proposal.confidence)`. -/
def applyProposalStep (acc : List (String × Val) × List ℚ)
    (e : String × FieldConfidence) : List (String × Val) × List ℚ :=
  (aset acc.1 e.1 e.2.value, acc.2 ++ [e.2.confidence])

/-- One field-merge step of `DecisionEngine.decide`: copy the raw value
of a field not yet in the output (and defined on the invoice), with
confidence 0.70, or 0.0 for an explicit null. -/
def mergeFieldStep (inv : Invoice) (acc : List (String × Val) × List ℚ)
    (field : String) : List (String × Val) × List ℚ :=
  if (alookup acc.1 field).isNone && !(inv.get field).isUndefined then
    (aset acc.1 field (inv.get field),
     acc.2 ++ [(match inv.get field with
       | .null => 0
       | .undefined => 0
       | _ => 7/10 : ℚ)])
  else acc

/-- Output record and confidence list after the proposal-application and
field-merge loops of `DecisionEngine.decide` (runner.ts lines 312-344). -/
def buildOutputAndConfidences (inv : Invoice)
    (proposals : List (String × FieldConfidence)) :
    List (String × Val) × List ℚ :=
  let output₀ : List (String × Val) :=
    [("invoiceId", Val.str inv.id), ("vendor", Val.str inv.vendor),
     ("invoiceNumber", Val.str inv.invoiceNumber)]
  decideFields.foldl (mergeFieldStep inv) (proposals.foldl applyProposalStep (output₀, []))

/-- Arithmetic mean of the collected confidences, 0 when none were
collected. -/
def meanOrZero (xs : List ℚ) : ℚ :=
  if xs.length = 0 then 0 else xs.sum / xs.length

/-- `item.amount || 0` for one line item inside the rule-5 sum; the
schema guarantees that a present amount is a number. -/
def itemAmount (item : Val) : ℚ :=
  match item with
  | .obj kvs =>
      match alookup kvs "amount" with
      | some (.num q) => q
      | _ => 0
  | _ => 0

/-- Reasoning string of escalation rule 1. -/
def dupReasoning : String :=
  "Duplicate invoice detected: matches fingerprint of previously processed invoice"

/-- Reasoning string of escalation rule 2. -/
def newVendorReasoning : String :=
  "New vendor: no existing memory found, requires initial human review"

/-- Reasoning string of escalation rule 3 for one critical field. -/
def criticalReasoning (f : String) : String :=
  "Critical field \"" ++ f ++ "\" is missing or has low confidence"

/-- Reasoning string of escalation rule 4. -/
def confReasoning (overallConfidence : ℚ) : String :=
  "Overall confidence (" ++ qToFixed2 overallConfidence ++ ") below threshold (0.80)"

/-- Reasoning string of escalation rule 5. -/
def mismatchReasoning (totalAmount : Val) (lineItemSum : ℚ) : String :=
  "Total amount mismatch: invoice total (" ++ totalAmount.toDisplay ++
    ") differs from line item sum (" ++ toString lineItemSum ++ ")"

/-- Reasoning string of the auto-approve outcome. -/
def approveReasoning (overallConfidence : ℚ) : String :=
  "High confidence automation: overall score " ++ qToFixed2 overallConfidence

/-- `output.lineItems.reduce((sum, item) => sum + (item.amount || 0), 0)`. -/
def lineItemSumOf (xs : List Val) : ℚ :=
  xs.foldl (fun s item => s + itemAmount item) 0

/-- Rule 3 of the escalation policy: first critical field that is falsy
in the merged output or whose proposal has confidence below 0.90
(runner.ts lines 429-441). -/
def criticalFieldCheck (output : List (String × Val))
    (proposals : List (String × FieldConfidence)) : List String → Option String
  | [] => none
  | f :: rest =>
      let proposal := alookup proposals f
      let value := (alookup output f).getD Val.undefined
      if !value.truthy ||
          (match proposal with
           | some p => decide (p.confidence < 9/10)
           | none => false) then
        some (criticalReasoning f)
      else criticalFieldCheck output proposals rest

/-- `DecisionEngine.shouldEscalate` (runner.ts lines 406-472): the five
prioritised escalation rules, first hit wins. -/
def shouldEscalate (ctx : ProcessingContext) (output : List (String × Val))
    (overallConfidence : ℚ) (proposals : List (String × FieldConfidence))
    (isDup : Bool) : Bool × String :=
  if isDup then
    (true, dupReasoning)
  else if ctx.vendorMemory.isNone then
    (true, newVendorReasoning)
  else
    match criticalFieldCheck output proposals ["totalAmount", "date", "vendor"] with
    | some reason => (true, reason)
    | none =>
        if overallConfidence < 8/10 then
          (true, confReasoning overallConfidence)
        else
          let lineItems := (alookup output "lineItems").getD Val.undefined
          let totalAmount := (alookup output "totalAmount").getD Val.undefined
          let fire :=
            match lineItems with
            | .arr xs =>
                if xs.length > 0 ∧ totalAmount.truthy then
                  let diffBig :=
                    match totalAmount with
                    | .num t => decide (|t - lineItemSumOf xs| > 1/100)
                    | _ => false
                  if diffBig ∧ lineItemSumOf xs > 0 then
                    some (mismatchReasoning totalAmount (lineItemSumOf xs))
                  else none
                else none
            | _ => none
          match fire with
          | some reason => (true, reason)
          | none => (false, approveReasoning overallConfidence)

/-- Finalised output contract (the spread output record plus the decision
fields). -/
structure OutputContract where
  output : List (String × Val)
  requiresHumanReview : Bool
  reasoning : String
  confidence : ℚ
  auditTrail : List AuditEntry
  processedAt : String
deriving Repr

/-- `DecisionEngine.decide` (runner.ts lines 306-401): merge proposals
with raw values, compute the overall confidence, run the escalation
policy, and persist the fingerprint of a not-yet-recorded invoice. -/
def decideFn (ctx : ProcessingContext) (proposals : List (String × FieldConfidence))
    (now : String) (st : ProcessedStore) : OutputContract × ProcessedStore :=
  let inv := ctx.invoice
  let built := buildOutputAndConfidences inv proposals
  let output := built.1
  let overallConfidence := meanOrZero built.2
  let fingerprint := generateInvoiceFingerprint inv.vendor inv.invoiceNumber
    inv.date inv.totalAmount
  let isDup := isDuplicate st fingerprint
  let reviewDecision := shouldEscalate ctx output overallConfidence proposals isDup
  let contract : OutputContract :=
    { output := output
      requiresHumanReview := reviewDecision.1
      reasoning := reviewDecision.2
      confidence := overallConfidence
      auditTrail := ctx.auditTrail ++
        [{ step := "DECIDE",
           action := if reviewDecision.1 then "ESCALATE" else "AUTO_APPROVE",
           reasoning := reviewDecision.2,
           confidence := some overallConfidence, timestamp := now }]
      processedAt := now }
  let st₂ := if isDup then st else recordProcessedInvoice st fingerprint
  (contract, st₂)

/-- `DecisionEngine.recordResolutions` (runner.ts lines 477-499): derive
a per-field outcome for every proposal carrying a rule id and persist it
(strict JS equality on the schema value shapes is structural
equality). -/
def recordResolutions (proposals : List (String × FieldConfidence))
    (humanCorrection : Invoice) (st : ResolutionStore) (now : String) : ResolutionStore :=
  proposals.foldl
    (fun st e =>
      match e.2.ruleId with
      | none => st
      | some rid =>
          let humanValue := humanCorrection.get e.1
          let fieldOutcome :=
            if Val.beq humanValue e.2.value || humanValue.isUndefined then
              Outcome.ACCEPTED
            else Outcome.REJECTED
          recordResolution st rid humanCorrection.id fieldOutcome now)
    st

/-! ## Structural diff (src/src/utils/diff.ts wrapping the external
rfc6902 package) -/

/-- JSON Patch operation kind.  `createPatch` only ever emits add,
remove and replace. -/
inductive OpKind where
  | add
  | remove
  | replace
deriving Repr, DecidableEq

/-- One JSON Patch operation. -/
structure PatchOp where
  op : OpKind
  path : String
  value : Option Val := none
deriving Repr

/-- Modelled from the spec: the structural diff of the external rfc6902
`createPatch` (its source is not part of this repository).  Equal values
produce no operations; differing objects are diffed per key (missing key
in the new record gives remove, new key gives add, common keys recurse);
differing arrays are diffed pointwise with add/remove for the length
difference; any other difference is a replace carrying the new value.
The fuel argument strictly exceeds the recursion depth of every call
made through `computeDiff`. -/
def diffAnyF : ℕ → String → Val → Val → List PatchOp
  | 0, _, _, _ => []
  | fuel + 1, path, a, b =>
      if Val.beq a b then []
      else
        match a, b with
        | .obj xs, .obj ys =>
            (xs.filterMap (fun kv =>
              if (alookup ys kv.1).isSome then none
              else some ⟨OpKind.remove, path ++ "/" ++ kv.1, none⟩)) ++
            diffObjsF fuel path xs ys
        | .arr xs, .arr ys => diffArrsF fuel path 0 xs ys
        | _, _ => [⟨OpKind.replace, path, some b⟩]
where
  /-- Per-key recursion over the keys of the new record. -/
  diffObjsF : ℕ → String → List (String × Val) → List (String × Val) → List PatchOp
    | 0, _, _, _ => []
    | fuel + 1, path, xs, ys =>
        match ys with
        | [] => []
        | (k, w) :: rest =>
            (match alookup xs k with
             | some v => diffAnyF fuel (path ++ "/" ++ k) v w
             | none => [⟨OpKind.add, path ++ "/" ++ k, some w⟩]) ++
            diffObjsF fuel path xs rest
  /-- Pointwise recursion over array elements. -/
  diffArrsF : ℕ → String → ℕ → List Val → List Val → List PatchOp
    | 0, _, _, _, _ => []
    | fuel + 1, path, i, xs, ys =>
        match xs, ys with
        | [], [] => []
        | x :: xs, y :: ys =>
            diffAnyF fuel (path ++ "/" ++ toString i) x y ++
            diffArrsF fuel path (i + 1) xs ys
        | [], y :: ys =>
            ⟨OpKind.add, path ++ "/" ++ toString i, some y⟩ ::
            diffArrsF fuel path (i + 1) [] ys
        | _ :: xs, [] =>
            ⟨OpKind.remove, path ++ "/" ++ toString i, none⟩ ::
            diffArrsF fuel path (i + 1) xs []

mutual

/-- Executable structural size of a value, used as the diff fuel. -/
def Val.siz : Val → ℕ
  | .arr xs => Val.sizList xs + 1
  | .obj kvs => Val.sizObj kvs + 1
  | _ => 1

/-- Size of an array payload. -/
def Val.sizList : List Val → ℕ
  | [] => 0
  | x :: xs => Val.siz x + Val.sizList xs + 1

/-- Size of an object payload. -/
def Val.sizObj : List (String × Val) → ℕ
  | [] => 0
  | (_, v) :: kvs => Val.siz v + Val.sizObj kvs + 1

end

/-- `computeDiff` (diff.ts lines 21-23). -/
def computeDiff (original modified : Val) : List PatchOp :=
  diffAnyF (original.siz + modified.siz + 1) "" original modified

/-- `extractChanges` (diff.ts lines 42-54): keep replace/add operations,
keyed by the path without its leading slash (later operations on the
same field overwrite, Map insertion order is preserved). -/
def extractChanges (patch : List PatchOp) : List (String × Val) :=
  patch.foldl
    (fun changes op =>
      match op.op with
      | OpKind.replace => aset changes (op.path.drop 1) (op.value.getD Val.undefined)
      | OpKind.add => aset changes (op.path.drop 1) (op.value.getD Val.undefined)
      | _ => changes)
    []

/-! ## Induction engine (src/src/core/logic/induction.ts) -/

/-- `getFieldValue` (induction.ts lines 420-433): walk the slash path
into the record, undefined when the walk leaves object/array
territory. -/
def getFieldValueAux : List String → Val → Val
  | [], v => v
  | p :: ps, .obj kvs => getFieldValueAux ps ((alookup kvs p).getD .undefined)
  | p :: ps, .arr xs =>
      getFieldValueAux ps
        (match p.toNat? with
         | some i => xs.getD i .undefined
         | none => .undefined)
  | _ :: _, _ => .undefined

/-- `getFieldValue` on a slash-separated path string. -/
def getFieldValue (record : Val) (path : String) : Val :=
  getFieldValueAux ((path.splitOn "/").filter (· ≠ "")) record

/-- `isDateField` (induction.ts): case-insensitive `date` substring. -/
def isDateField (field : String) : Bool :=
  strIncludes field.toLower "date"

/-- `isNumericField` (induction.ts): case-insensitive
amount/price/quantity/tax/total/net substring. -/
def isNumericField (field : String) : Bool :=
  strIncludes field.toLower "amount" || strIncludes field.toLower "price" ||
  strIncludes field.toLower "quantity" || strIncludes field.toLower "tax" ||
  strIncludes field.toLower "total" || strIncludes field.toLower "net"

/-- JS regex-literal escaping
`value.replace(/[.*+?^$\x7b\x7d()|[\]\\]/g, '\\$&')`. -/
def jsRegexEscape (s : String) : String :=
  String.mk (s.toList.foldr
    (fun c acc =>
      if c ∈ ['.', '*', '+', '?', '^', '$', '\x7b', '\x7d', '(', ')', '|', '[', ']', '\\']
      then '\\' :: c :: acc
      else c :: acc)
    [])

/-- First index of `pat` in `s`, JS `indexOf` (-1 when absent). -/
def strIndexOfAux (p : List Char) : List Char → ℕ → Int
  | [], i => if p.isEmpty then (i : Int) else -1
  | cs@(_ :: rest), i => if p.isPrefixOf cs then (i : Int) else strIndexOfAux p rest (i + 1)

/-- JS `String.prototype.indexOf`. -/
def strIndexOf (s pat : String) : Int :=
  strIndexOfAux pat.toList s.toList 0

/-- JS `String.prototype.substring` with clamping and argument
swapping. -/
def jsSubstring (s : String) (a b : Int) : String :=
  let n : Int := s.length
  let x := (min (max a 0) n).toNat
  let y := (min (max b 0) n).toNat
  let lo := min x y
  let hi := max x y
  String.mk ((s.toList.drop lo).take (hi - lo))

/-- JS `String.prototype.replace` with a plain-string pattern: first
occurrence only. -/
def jsReplaceFirst (s pat rep : String) : String :=
  let i := strIndexOf s pat
  if i < 0 then s
  else String.mk (s.toList.take i.toNat ++ rep.toList ++ s.toList.drop (i.toNat + pat.length))

/-- `variant.replace(/[\d]/g, '\\d')` of the unlabeled date fallback. -/
def digitsToBackslashD (s : String) : String :=
  String.mk (s.toList.foldr
    (fun c acc => if c.isDigit then '\\' :: 'd' :: acc else c :: acc) [])

/-- `escaped.replace(/[A-Z0-9]/g, ...)` of the PO pattern: uppercase
letters generalise to a letter class, digits to a digit class. -/
def poGeneralize (s : String) : String :=
  String.join (s.toList.map
    (fun c =>
      if 'A' ≤ c ∧ c ≤ 'Z' then "[A-Z]"
      else if c.isDigit then "\\d"
      else String.mk [c]))

/-- Scan for the first `(\d\x7b4\x7d)-(\d\x7b2\x7d)-(\d\x7b2\x7d)` match
(year, month, day). -/
def tryIsoAt : List Char → Option (String × String × String)
  | a :: b :: c :: d :: '-' :: e :: f :: '-' :: g :: h :: _ =>
      if [a, b, c, d, e, f, g, h].all Char.isDigit then
        some (String.mk [a, b, c, d], String.mk [e, f], String.mk [g, h])
      else none
  | _ => none

/-- Unanchored scan used by `generateDateVariants`. -/
def isoScan : List Char → Option (String × String × String)
  | [] => none
  | cs@(_ :: rest) =>
      match tryIsoAt cs with
      | some r => some r
      | none => isoScan rest

/-- `generateDateVariants` (induction.ts lines 443-455): the ISO input
plus German `DD.MM.YYYY` and `DD.MM.YY` renderings. -/
def generateDateVariants (isoDate : String) : List String :=
  match isoScan isoDate.toList with
  | none => [isoDate]
  | some (y, m, d) => [isoDate, d ++ "." ++ m ++ "." ++ y, d ++ "." ++ m ++ "." ++ (y.drop 2)]

/-- Insert a space before every uppercase letter, then trim
(`field.replace(/([A-Z])/g, ' $1').trim()`). -/
def camelSpaced (s : String) : String :=
  (String.mk (s.toList.foldr
    (fun c acc => if 'A' ≤ c ∧ c ≤ 'Z' then ' ' :: c :: acc else c :: acc) [])).trim

/-- `generateFieldLabels` (induction.ts lines 457-472). -/
def generateFieldLabels (field : String) : List String :=
  let labels := [field, camelSpaced field]
  let fieldLower := field.toLower
  let labels := if strIncludes fieldLower "net" then labels ++ ["Netto", "Net"] else labels
  let labels :=
    if strIncludes fieldLower "total" then labels ++ ["Gesamt", "Total", "Summe"] else labels
  let labels := if strIncludes fieldLower "tax" then labels ++ ["MwSt", "Tax", "VAT"] else labels
  let labels := if strIncludes fieldLower "date" then labels ++ ["Datum", "Date"] else labels
  labels

/-- The fixed date label vocabulary of `induceRegexForDate`. -/
def dateLabels : List String :=
  ["Leistungsdatum", "Service Date", "Datum", "Date", "Rechnungsdatum", "Invoice Date"]

/-- The generalised extraction pattern emitted on a labeled date hit. -/
def dateExtractPattern (label : String) : String :=
  label ++ "[:\\s]*(\\d\x7b2\x7d\\.\\d\x7b2\x7d\\.\\d\x7b2,4\x7d|\\d\x7b4\x7d-\\d\x7b2\x7d-\\d\x7b2\x7d)"

/-- Inner label loop of `induceRegexForDate`: an uncompilable pattern is
a thrown SyntaxError (there is no try/catch in the induction
strategies). -/
def dateLabelLoop (o : RegexOracle) (rawText variant escapedVariant now : String) :
    List String → Except String (Option VendorPattern)
  | [] => .ok none
  | label :: rest =>
      let pattern := label ++ "[:\\s]*" ++ escapedVariant
      match o.compile pattern with
      | none => .error "SyntaxError: invalid regular expression"
      | some m =>
          if (m rawText).isSome then
            let idx := strIndexOf rawText variant
            .ok (some
              { ruleType := "REGEX"
                logic := createRegexRule (dateExtractPattern label) "rawText" 1
                confidence := 95/100
                sampleEvidence :=
                  some (jsSubstring rawText (max 0 (idx - 20)) (idx + variant.length + 20))
                createdAt := now })
          else dateLabelLoop o rawText variant escapedVariant now rest

/-- Outer variant loop of the labeled pass of `induceRegexForDate`. -/
def dateVariantLoop (o : RegexOracle) (rawText now : String) :
    List String → Except String (Option VendorPattern)
  | [] => .ok none
  | variant :: rest => do
      match ← dateLabelLoop o rawText variant (jsRegexEscape variant) now dateLabels with
      | some rule => .ok (some rule)
      | none => dateVariantLoop o rawText now rest

/-- Unlabeled fallback pass of `induceRegexForDate`. -/
def dateFallbackLoop (now : String) (rawText : String) :
    List String → Option VendorPattern
  | [] => none
  | variant :: rest =>
      if strIncludes rawText variant then
        some
          { ruleType := "REGEX"
            logic := createRegexRule ("(" ++ digitsToBackslashD variant ++ ")") "rawText" 1
            confidence := 7/10
            sampleEvidence := some variant
            createdAt := now }
      else dateFallbackLoop now rawText rest

/-- `induceRegexForDate` (induction.ts lines 101-162).  A truthy
non-string corrected value throws (TypeError from `dateValue.match`),
modelled as an error. -/
def induceRegexForDate (_field : String) (dateValue : Val) (rawText : String)
    (o : RegexOracle) (now : String) : Except String (Option VendorPattern) :=
  if rawText = "" ∨ !dateValue.truthy then .ok none
  else
    match dateValue with
    | .str d => do
        let variants := generateDateVariants d
        match ← dateVariantLoop o rawText now variants with
        | some rule => .ok (some rule)
        | none => .ok (dateFallbackLoop now rawText variants)
    | _ => .error "TypeError: dateValue.match is not a function"

/-- Inner label loop of `induceRegexForNumber`. -/
def numberLabelLoop (o : RegexOracle) (rawText variant now : String) :
    List String → Except String (Option VendorPattern)
  | [] => .ok none
  | label :: rest =>
      let pattern := label ++ "[:\\s]*(\\d+[.,]?\\d*)"
      match o.compile pattern with
      | none => .error "SyntaxError: invalid regular expression"
      | some m =>
          if (m rawText).isSome then
            .ok (some
              { ruleType := "REGEX"
                logic := createRegexRule pattern "rawText" 1
                confidence := 85/100
                sampleEvidence := some variant
                createdAt := now })
          else numberLabelLoop o rawText variant now rest

/-- Variant loop of `induceRegexForNumber` (induction.ts lines
167-200). -/
def numberVariantLoop (o : RegexOracle) (field rawText now : String) :
    List String → Except String (Option VendorPattern)
  | [] => .ok none
  | variant :: rest => do
      if strIncludes rawText variant then
        match ← numberLabelLoop o rawText variant now (generateFieldLabels field) with
        | some rule => .ok (some rule)
        | none => numberVariantLoop o field rawText now rest
      else numberVariantLoop o field rawText now rest

/-- `induceRegexForNumber` (induction.ts lines 167-200); the JS
`numValue.toString()` is modelled by the rational printer. -/
def induceRegexForNumber (field : String) (numValue : ℚ) (rawText : String)
    (o : RegexOracle) (now : String) : Except String (Option VendorPattern) :=
  if rawText = "" then .ok none
  else
    let numStr := toString numValue
    numberVariantLoop o field rawText now [numStr, jsReplaceFirst numStr "." ","]

/-- `induceRegexForText` (induction.ts lines 259-287): generic labeled
single-line value extraction. -/
def textLabelLoop (o : RegexOracle) (rawText valueStr now : String) :
    List String → Except String (Option VendorPattern)
  | [] => .ok none
  | label :: rest =>
      let pattern := label ++ "[:\\s]*([^\\n\\r]+)"
      match o.compile pattern with
      | none => .error "SyntaxError: invalid regular expression"
      | some m =>
          match m rawText with
          | some groups =>
              (match groups.getD 1 none with
               | some g1 =>
                   if strIncludes g1 valueStr then
                     .ok (some
                       { ruleType := "REGEX"
                         logic := createRegexRule pattern "rawText" 1
                         confidence := 8/10
                         sampleEvidence := some valueStr
                         createdAt := now })
                   else textLabelLoop o rawText valueStr now rest
               | none => textLabelLoop o rawText valueStr now rest)
          | none => textLabelLoop o rawText valueStr now rest

/-- `induceRegexForText` proper (JS `includes` coerces its argument, so
a non-string value cannot throw here). -/
def induceRegexForText (field : String) (value : Val) (rawText : String)
    (o : RegexOracle) (now : String) : Except String (Option VendorPattern) :=
  if rawText = "" ∨ !value.truthy then .ok none
  else
    let valueStr := value.toDisplay
    if strIncludes rawText valueStr then
      textLabelLoop o rawText valueStr now (generateFieldLabels field)
    else .ok none

/-- `induceRegexForPaymentTerms` (induction.ts lines 205-228): the
Skonto-specific pattern first, then the generic text fallback.  A truthy
non-string value throws on `value.toLowerCase()`. -/
def induceRegexForPaymentTerms (value : Val) (rawText : String)
    (o : RegexOracle) (now : String) : Except String (Option VendorPattern) :=
  if rawText = "" ∨ !value.truthy then .ok none
  else
    match value with
    | .str v =>
        if strIncludes v.toLower "skonto" then
          let pattern := "(\\d+%\\s*Skonto)"
          match o.compile pattern with
          | none => .error "SyntaxError: invalid regular expression"
          | some m =>
              if (m rawText).isSome then
                .ok (some
                  { ruleType := "REGEX"
                    logic := createRegexRule pattern "rawText" 1
                    confidence := 9/10
                    sampleEvidence := some v
                    createdAt := now })
              else induceRegexForText "paymentTerms" value rawText o now
        else induceRegexForText "paymentTerms" value rawText o now
    | _ => .error "TypeError: value.toLowerCase is not a function"

/-- `induceRegexForPO` (induction.ts lines 233-254).  A truthy
non-string value throws on `value.replace`. -/
def induceRegexForPO (value : Val) (rawText : String) (now : String) :
    Except String (Option VendorPattern) :=
  if rawText = "" ∨ !value.truthy then .ok none
  else
    match value with
    | .str v =>
        let escaped := jsRegexEscape v
        if strIncludes rawText v then
          .ok (some
            { ruleType := "REGEX"
              logic := createRegexRule ("(" ++ poGeneralize escaped ++ ")") "rawText" 1
              confidence := 85/100
              sampleEvidence := some v
              createdAt := now })
        else .ok none
    | _ => .error "TypeError: value.replace is not a function"

/-- The inclusive-tax raw-text marker pattern of arithmetic hypothesis 1
(a fixed regex literal, so compilation cannot fail in JS; an oracle that
rejects it simply reports no match). -/
def inclusiveMarkerTest (o : RegexOracle) (rawText : String) : Bool :=
  match o.compile "mwst\\.?\\s*inkl|gross|brutto|tax\\s*incl" with
  | some m => (m rawText).isSome
  | none => false

/-- `induceArithmeticFormula` (induction.ts lines 296-374): the three
fixed VAT hypotheses against the corrected value with 0.01 tolerance.
`genId` models `generateRuleId` (Date.now plus md5). -/
def induceArithmeticFormula (field : String) (correctedValue : ℚ) (invoice : Invoice)
    (o : RegexOracle) (genId : String → String) (now : String) : Option CorrectionMemory :=
  let h1 :=
    if field = "taxAmount" ∧ invoice.totalAmount.truthy ∧ !invoice.taxAmount.truthy then
      match invoice.totalAmount with
      | .num t =>
          let calculated := t - t / (119/100)
          if |calculated - correctedValue| < 1/100 ∧
              invoice.rawText ≠ "" ∧ inclusiveMarkerTest o invoice.rawText then
            some
              { id := genId "inclusive_vat_19"
                triggerCondition := .andE
                  [.eqE (.varE "taxAmount") (.lit (.num 0)),
                   .gtE (.varE "totalAmount") (.lit (.num 0)),
                   .regexTestE (.lit (.str "mwst\\.?\\s*inkl|gross|brutto|tax\\s*incl"))
                     (.varE "rawText")]
                action := createArithmeticRule "inclusive_vat_19" "totalAmount"
                description := "Calculate 19% VAT from gross amount when \"MwSt. inkl.\" detected"
                confidence := 95/100
                decayFactor := 95/100
                createdAt := now }
          else none
      | _ => none
    else none
  match h1 with
  | some r => some r
  | none =>
      let h2 :=
        if field = "taxAmount" ∧ invoice.netAmount.truthy ∧ !invoice.taxAmount.truthy then
          match invoice.netAmount with
          | .num n =>
              if |n * (19/100) - correctedValue| < 1/100 then
                some
                  { id := genId "exclusive_vat_19"
                    triggerCondition := .andE
                      [.eqE (.varE "taxAmount") (.lit (.num 0)),
                       .gtE (.varE "netAmount") (.lit (.num 0))]
                    action := createArithmeticRule "exclusive_vat_19" "netAmount"
                    description := "Calculate 19% VAT from net amount"
                    confidence := 9/10
                    decayFactor := 95/100
                    createdAt := now }
              else none
          | _ => none
        else none
      match h2 with
      | some r => some r
      | none =>
          if field = "netAmount" ∧ invoice.totalAmount.truthy ∧ !invoice.netAmount.truthy then
            match invoice.totalAmount with
            | .num t =>
                if |t / (119/100) - correctedValue| < 1/100 then
                  some
                    { id := genId "net_from_gross_19"
                      triggerCondition := .andE
                        [.eqE (.varE "netAmount") (.lit (.num 0)),
                         .gtE (.varE "totalAmount") (.lit (.num 0))]
                      action := createArithmeticRule "net_from_gross_19" "totalAmount"
                      description := "Calculate net amount from gross (19% VAT)"
                      confidence := 9/10
                      decayFactor := 95/100
                      createdAt := now }
                else none
            | _ => none
          else none

/-- JS `description.toLowerCase().split(/\s+/)`: split on whitespace
runs, keeping boundary empty tokens. -/
def jsSplitWs (s : String) : List String :=
  go s.toList []
where
  go : List Char → List Char → List String
    | [], acc => [String.mk acc.reverse]
    | c :: rest, acc =>
        if c.isWhitespace then
          String.mk acc.reverse :: go (rest.dropWhile Char.isWhitespace) []
        else go rest (c :: acc)
  termination_by cs _ => cs.length
  decreasing_by
    · exact Nat.lt_succ_of_le (List.dropWhile_sublist _).length_le
    · simp

/-- `induceMapping` (induction.ts lines 383-414): lookup table keyed by
the lowercased full description and every lowercased token longer than
three characters (the schema types a corrected SKU as a string). -/
def induceMapping (field description sku : String) (now : String) : Option VendorPattern :=
  if description = "" ∨ sku = "" then none
  else
    let tokens := jsSplitWs description.toLower
    let mapping := aset ([] : List (String × String)) description.toLower sku
    let mapping := tokens.foldl
      (fun m token => if token.length > 3 then aset m token sku else m) mapping
    some
      { ruleType := "MAP"
        logic := createMapRule mapping (jsReplaceFirst field ".sku" ".description")
        confidence := 85/100
        sampleEvidence := some description
        createdAt := now }

/-- Scan for the first `lineItems/(\d+)` occurrence and return the
captured index. -/
def lineItemsIndexScan : List Char → Option ℕ
  | [] => none
  | cs@(_ :: rest) =>
      let pfx := "lineItems/".toList
      if pfx.isPrefixOf cs then
        let tail := cs.drop pfx.length
        let digits := tail.takeWhile Char.isDigit
        if digits.isEmpty then lineItemsIndexScan rest
        else (String.mk digits).toNat?
      else lineItemsIndexScan rest

/-- `getDescriptionForSku` (induction.ts lines 474-483): description of
the line item addressed by the field path (`|| null` makes an empty
description absent; the schema types descriptions as strings). -/
def getDescriptionForSku (field : String) (invoice : Invoice) : Option String :=
  match lineItemsIndexScan field.toList with
  | none => none
  | some index =>
      match invoice.lineItems with
      | .arr xs =>
          match xs.getD index Val.undefined with
          | .obj kvs =>
              match alookup kvs "description" with
              | some (.str d) => if d = "" then none else some d
              | _ => none
          | _ => none
      | _ => none

/-- Result of `induceRules`. -/
structure InductionResult where
  vendorRules : List (String × VendorPattern) := []
  correctionRules : List CorrectionMemory := []
deriving Repr

/-- Dispatch of `induceRules` for a single changed field (induction.ts
lines 37-89). -/
def induceForChange (systemOutput : Invoice) (o : RegexOracle) (genId : String → String)
    (now : String) (result : InductionResult) (field : String) (newValue : Val) :
    Except String InductionResult := do
  if isDateField field then
    match ← induceRegexForDate field newValue systemOutput.rawText o now with
    | some rule => .ok { result with vendorRules := result.vendorRules ++ [(field, rule)] }
    | none => .ok result
  else if isNumericField field && (match newValue with | .num _ => true | _ => false) then
    match newValue with
    | .num q =>
        match induceArithmeticFormula field q systemOutput o genId now with
        | some formulaRule =>
            .ok { result with correctionRules := result.correctionRules ++ [formulaRule] }
        | none =>
            match ← induceRegexForNumber field q systemOutput.rawText o now with
            | some rule =>
                .ok { result with vendorRules := result.vendorRules ++ [(field, rule)] }
            | none => .ok result
    | _ => .ok result
  else if strIncludes field "sku" || strIncludes field "Sku" then
    match getDescriptionForSku field systemOutput with
    | some description =>
        match newValue with
        | .str sku =>
            match induceMapping field description sku now with
            | some rule =>
                .ok { result with vendorRules := result.vendorRules ++ [(field, rule)] }
            | none => .ok result
        | _ => .ok result
    | none => .ok result
  else if strIncludes field "paymentTerms" then
    match ← induceRegexForPaymentTerms newValue systemOutput.rawText o now with
    | some rule => .ok { result with vendorRules := result.vendorRules ++ [(field, rule)] }
    | none => .ok result
  else if strIncludes field "poNumber" then
    match ← induceRegexForPO newValue systemOutput.rawText now with
    | some rule => .ok { result with vendorRules := result.vendorRules ++ [(field, rule)] }
    | none => .ok result
  else
    match ← induceRegexForText field newValue systemOutput.rawText o now with
    | some rule => .ok { result with vendorRules := result.vendorRules ++ [(field, rule)] }
    | none => .ok result

/-- `induceRules` (induction.ts lines 19-92): diff the two records,
extract the add/replace changes, skip unchanged leaves (strict equality,
structural on the schema value shapes), and dispatch each remaining
change by the field-name heuristics. -/
def induceRules (systemOutput humanCorrection : Invoice) (o : RegexOracle)
    (genId : String → String) (now : String) : Except String InductionResult := do
  let patch := computeDiff systemOutput.toVal humanCorrection.toVal
  if patch.length = 0 then .ok {}
  else
    (extractChanges patch).foldlM
      (fun result fv =>
        let oldValue := getFieldValue systemOutput.toVal fv.1
        if Val.beq oldValue fv.2 then .ok result
        else induceForChange systemOutput o genId now result fv.1 fv.2)
      {}

/-! ## Claim-support definitions -/


/-- One recorded resolution event. -/
structure ResolutionOp where
  ruleId : String
  invoiceId : String
  outcome : Outcome
  now : String

/-- A resolution store maintained through `recordResolution` from the
initially empty table. -/
def applyResolutionOps (ops : List ResolutionOp) : ResolutionStore :=
  ops.foldl (fun st op => recordResolution st op.ruleId op.invoiceId op.outcome op.now) []

/-- The C7 invariants of one resolution record. -/
def resolutionOk (m : ResolutionMemory) : Prop :=
  m.history.length ≤ 100 ∧ m.acceptedCount + m.rejectedCount ≤ m.totalApplications

/-- A regex engine that rejects every pattern (a legal oracle used by
witnesses). -/
def noRegex : RegexOracle := { compile := fun _ => none }

/-- The canonical field-name priority list of the spec: tax-related,
then net-related, then total-related. -/
def specFieldPriority : List (String × String) :=
  [("tax", "taxAmount"), ("net", "netAmount"), ("total", "totalAmount")]

/-- The field inference as the spec states it: first canonical substring
found in the serialised action wins, no match means no field. -/
def specExtractField (actionStr : String) : Option String :=
  (specFieldPriority.find? (fun kv => strIncludes actionStr kv.1)).map (·.2)

def c5Invoice : Invoice := { id := "i", vendor := "v", invoiceNumber := "n" }

def c5Existing : FieldConfidence :=
  { field := "netAmount", value := .num 5, confidence := 9/10, source := "VENDOR_PATTERN" }

def c5Correction : CorrectionMemory :=
  { id := "c", triggerCondition := .lit (.bool true),
    action := .varE "netAmount",
    description := "d", confidence := 1/2 }

/-- One critical field's rule-3 test, as the spec states it: the merged
value is falsy, or a proposal for it has confidence below 0.90. -/
def criticalFieldBad (output : List (String × Val))
    (proposals : List (String × FieldConfidence)) (f : String) : Bool :=
  !((alookup output f).getD Val.undefined).truthy ||
    (match alookup proposals f with
     | some p => decide (p.confidence < 9/10)
     | none => false)

/-- Rule 3 as the spec states it: the first bad critical field in the
fixed order totalAmount, date, vendor wins. -/
def specRule3 (output : List (String × Val))
    (proposals : List (String × FieldConfidence)) : Option String :=
  (["totalAmount", "date", "vendor"].find? (criticalFieldBad output proposals)).map
    criticalReasoning

/-- Rule 5 as the spec states it, amended with the positive line-item
sum requirement the code imposes. -/
def specRule5 (output : List (String × Val)) : Option String :=
  match (alookup output "lineItems").getD Val.undefined with
  | .arr xs =>
      if xs.length > 0 ∧ ((alookup output "totalAmount").getD Val.undefined).truthy then
        match (alookup output "totalAmount").getD Val.undefined with
        | .num t =>
            if |t - lineItemSumOf xs| > 1/100 ∧ lineItemSumOf xs > 0 then
              some (mismatchReasoning (Val.num t) (lineItemSumOf xs))
            else none
        | _ => none
      else none
  | _ => none

/-- The escalation policy as the spec states it (with the amended rule
5): a fixed ordered rule list, first hit wins, auto-approve when no rule
fires. -/
def specEscalate (ctx : ProcessingContext) (output : List (String × Val))
    (conf : ℚ) (props : List (String × FieldConfidence)) (isDup : Bool) : Bool × String :=
  match [if isDup then some dupReasoning else none,
         if ctx.vendorMemory.isNone then some newVendorReasoning else none,
         specRule3 output props,
         if conf < 8/10 then some (confReasoning conf) else none,
         specRule5 output].findSome? id with
  | some r => (true, r)
  | none => (false, approveReasoning conf)

def c1Invoice : Invoice :=
  { id := "I1", vendor := "V", invoiceNumber := "N1", date := Val.str "2023-01-01",
    totalAmount := Val.num 100, lineItems := Val.arr [Val.obj [("amount", Val.num 0)]] }

def c1Context : ProcessingContext :=
  { invoice := c1Invoice, vendorMemory := some { id := "vm1", vendorName := "V" } }

def c1Proposals : List (String × FieldConfidence) :=
  [("totalAmount",
    { field := "totalAmount", value := Val.num 100, confidence := 95/100,
      source := "VENDOR_PATTERN" }),
   ("date",
    { field := "date", value := Val.str "2023-01-01", confidence := 95/100,
      source := "VENDOR_PATTERN" })]

def c10Context : ProcessingContext :=
  { invoice := { id := "I", vendor := "V", invoiceNumber := "N" },
    vendorMemory := some { id := "vm", vendorName := "V" } }

/-- One decide invocation: its context, proposal map and timestamp. -/
structure DecideCall where
  ctx : ProcessingContext
  proposals : List (String × FieldConfidence)
  now : String

/-- The processed-invoice store transition of one decide call. -/
def decideStep (st : ProcessedStore) (call : DecideCall) : ProcessedStore :=
  (decideFn call.ctx call.proposals call.now st).2

/-- The fingerprint decide computes for a call's invoice. -/
def callFingerprint (call : DecideCall) : String :=
  generateInvoiceFingerprint call.ctx.invoice.vendor call.ctx.invoice.invoiceNumber
    call.ctx.invoice.date call.ctx.invoice.totalAmount

def c2Invoice : Invoice :=
  { id := "A1", vendor := "Supplier GmbH", invoiceNumber := "A-001",
    date := Val.str "2023-12-15", totalAmount := Val.num 1000 }

def c2CallA : DecideCall :=
  { ctx := { invoice := c2Invoice }, proposals := [], now := "t1" }

def c2InvoiceB : Invoice :=
  { c2Invoice with
    id := "A2"
    lineItems := Val.arr [Val.obj [("amount", Val.num 1000)]] }

def c2CallB : DecideCall :=
  { ctx := { invoice := c2InvoiceB }, proposals := [], now := "t2" }

def c4Invoice : Invoice := { id := "I4", vendor := "V4", invoiceNumber := "N4" }

def c4Context : ProcessingContext := { invoice := c4Invoice }

def c4Props : List (String × FieldConfidence) :=
  [("date",
    { field := "date", value := Val.str "2024-01-01", confidence := 1,
      source := "VENDOR_PATTERN" })]

/-- The overall-confidence computation exactly as claim C4 states it:
every field of the fixed set not covered by a proposal contributes 0.70
when its raw value is present and non-null and 0.0 otherwise — including
when it is absent. -/
def claimOverallConfidence (inv : Invoice)
    (props : List (String × FieldConfidence)) : ℚ :=
  meanOrZero (props.map (fun e => e.2.confidence) ++
    decideFields.filterMap (fun f =>
      if (alookup props f).isSome then none
      else some (match inv.get f with
        | .undefined => 0
        | .null => 0
        | _ => (7/10 : ℚ))))

def c8Invoice : Invoice := { id := "X", vendor := "VX", invoiceNumber := "NX" }

def c9Mapping : List (String × String) :=
  [("seefracht hamburg-ny", "FREIGHT"), ("seefracht", "FREIGHT"), ("hamburg-ny", "FREIGHT")]

/-! ## Theorems -/

/-- C3: `calculateConfidence(base, resolution, lastUsed)` returns exactly
`base × 0.8` whenever the resolution record is absent or has
`totalApplications = 0`; otherwise it returns
`max(0.1, (0.6·base + 0.4·(acceptedCount+1)/(totalApplications+2)) ×
0.99^daysSinceLastUse)` with decay factor 1.0 when `lastUsed` is unset;
and for fixed base, totalApplications and lastUsed the result is
monotonically non-decreasing in acceptedCount. -/
theorem claim_C3_calculateConfidence :
    (∀ (base : ℚ) (resolution : Option ResolutionMemory) (lastUsed : Option String)
        (db : String → String → ℕ) (now : String),
        (resolution = none ∨ ∃ r, resolution = some r ∧ r.totalApplications = 0) →
        calculateConfidence base resolution lastUsed db now = base * (8/10)) ∧
    (∀ (base : ℚ) (r : ResolutionMemory) (lastUsed : Option String)
        (db : String → String → ℕ) (now : String),
        r.totalApplications ≠ 0 →
        calculateConfidence base (some r) lastUsed db now =
          max (1/10)
            ((6/10 * base + 4/10 * (((r.acceptedCount : ℚ) + 1) / ((r.totalApplications : ℚ) + 2))) *
              (match lastUsed with
               | none => 1
               | some lu => (99/100 : ℚ) ^ (db lu now)))) ∧
    (∀ (base : ℚ) (r : ResolutionMemory) (a₁ a₂ : ℕ) (lastUsed : Option String)
        (db : String → String → ℕ) (now : String),
        a₁ ≤ a₂ →
        calculateConfidence base (some { r with acceptedCount := a₁ }) lastUsed db now ≤
        calculateConfidence base (some { r with acceptedCount := a₂ }) lastUsed db now) := by
  refine ⟨?_, ?_, ?_⟩
  · rintro base resolution lastUsed db now (rfl | ⟨r, rfl, hr⟩)
    · rfl
    · simp [calculateConfidence, hr]
  · intro base r lastUsed db now h
    simp only [calculateConfidence, if_neg h]
    norm_num
  · intro base r a₁ a₂ lastUsed db now h
    by_cases ht : r.totalApplications = 0
    · simp [calculateConfidence, ht]
    · simp only [calculateConfidence, ht, if_neg]
      have hD : (0:ℚ) ≤ (match lastUsed with
          | none => 1
          | some lu => (99/100 : ℚ) ^ (db lu now)) := by
        match lastUsed with
        | none => norm_num
        | some lu => positivity
      apply max_le_max le_rfl
      apply mul_le_mul_of_nonneg_right _ hD
      gcongr

/-- Witness for C3 at concrete inputs. -/
theorem claim_C3_witness :
    calculateConfidence (9/10) none none (fun _ _ => 0) "now" = (9/10) * (8/10) ∧
    calculateConfidence (9/10)
        (some { ruleId := "r", totalApplications := 3, acceptedCount := 1, rejectedCount := 1 })
        none (fun _ _ => 0) "now" ≤
      calculateConfidence (9/10)
        (some { ruleId := "r", totalApplications := 3, acceptedCount := 2, rejectedCount := 1 })
        none (fun _ _ => 0) "now" :=
  ⟨claim_C3_calculateConfidence.1 (9/10) none none (fun _ _ => 0) "now" (Or.inl rfl),
   claim_C3_calculateConfidence.2.2 (9/10)
     { ruleId := "r", totalApplications := 3, acceptedCount := 0, rejectedCount := 1 }
     1 2 none (fun _ _ => 0) "now" (by norm_num)⟩

/-- `cappedHistory` never exceeds 100 entries. -/
theorem cappedHistory_length (old : List HistoryEntry) (e : HistoryEntry) :
    (cappedHistory old e).length ≤ 100 := by
  unfold cappedHistory
  split
  · simp only [List.length_drop]
    omega
  · rename_i hle
    omega

/-- `cappedHistory` is exactly the FIFO suffix of the appended history. -/
theorem cappedHistory_eq_drop (old : List HistoryEntry) (e : HistoryEntry) :
    cappedHistory old e = (old ++ [e]).drop (old.length + 1 - 100) := by
  unfold cappedHistory
  split
  · congr 1
    simp [List.length_append]
  · rename_i hle
    simp only [List.length_append] at hle
    have h0 : old.length + 1 - 100 = 0 := by simp at hle; omega
    rw [h0, List.drop_zero]

/-- A read through `getResolutionMemory` satisfies the invariant whenever
every stored record does. -/
theorem getResolutionMemory_ok (st : ResolutionStore)
    (h : ∀ r m, alookup st r = some m → resolutionOk m) (rid : String) :
    resolutionOk (getResolutionMemory st rid) := by
  unfold getResolutionMemory
  cases hl : alookup st rid with
  | none => exact ⟨by simp, by simp⟩
  | some m => exact h _ _ hl

/-- `recordResolution` preserves the C7 invariant of every stored
record. -/
theorem recordResolution_ok (st : ResolutionStore) (rid inv : String) (out : Outcome)
    (now : String) (h : ∀ r m, alookup st r = some m → resolutionOk m) :
    ∀ r m, alookup (recordResolution st rid inv out now) r = some m → resolutionOk m := by
  intro r m hm
  unfold recordResolution at hm
  by_cases hr : r = rid
  · subst hr
    rw [alookup_aset_self] at hm
    obtain ⟨h1, h2⟩ := getResolutionMemory_ok st h r
    cases hm
    refine ⟨cappedHistory_length _ _, ?_⟩
    simp only
    cases out <;> simp <;> omega
  · rw [alookup_aset_ne _ _ _ _ hr] at hm
    exact h _ _ hm

/-- C7: every ResolutionMemory maintained through `recordResolution`
keeps `history.length ≤ 100` and
`acceptedCount + rejectedCount ≤ totalApplications` after every
operation; eviction is strictly FIFO (the new history is the suffix of
the appended history holding its most recent `min(old+1, 100)` entries);
and `getResolutionMemory` never reports absence — an unknown rule id
yields the all-zero default with empty history. -/
theorem claim_C7_resolutionMemory :
    (∀ (ops : List ResolutionOp) (r : String) (m : ResolutionMemory),
        alookup (applyResolutionOps ops) r = some m → resolutionOk m) ∧
    (∀ (st : ResolutionStore) (rid inv : String) (out : Outcome) (now : String),
        (getResolutionMemory (recordResolution st rid inv out now) rid).history =
          ((getResolutionMemory st rid).history ++
              ([{ invoiceId := inv, outcome := out, timestamp := now }] : List HistoryEntry)).drop
            ((getResolutionMemory st rid).history.length + 1 - 100)) ∧
    (∀ (st : ResolutionStore) (r : String), alookup st r = none →
        getResolutionMemory st r =
          { ruleId := r, totalApplications := 0, acceptedCount := 0,
            rejectedCount := 0, lastUsed := none, history := [] }) := by
  refine ⟨?_, ?_, ?_⟩
  · have key : ∀ (ops : List ResolutionOp) (st : ResolutionStore),
        (∀ r m, alookup st r = some m → resolutionOk m) →
        ∀ r m, alookup (ops.foldl
          (fun st op => recordResolution st op.ruleId op.invoiceId op.outcome op.now) st) r =
            some m → resolutionOk m := by
      intro ops
      induction ops with
      | nil => intro st h; exact h
      | cons op rest ih =>
          intro st h
          exact ih _ (recordResolution_ok st op.ruleId op.invoiceId op.outcome op.now h)
    intro ops
    exact key ops [] (by intro r m hm; simp [alookup] at hm)
  · intro st rid inv out now
    unfold recordResolution getResolutionMemory
    rw [alookup_aset_self]
    simp only
    rw [cappedHistory_eq_drop]
  · intro st r h
    unfold getResolutionMemory
    rw [h]

/-- Witness for C7: two recorded outcomes for one rule and a read of an
unknown rule id. -/
theorem claim_C7_witness :
    resolutionOk (getResolutionMemory
      (applyResolutionOps
        [{ ruleId := "r1", invoiceId := "i1", outcome := Outcome.ACCEPTED, now := "t1" },
         { ruleId := "r1", invoiceId := "i2", outcome := Outcome.REJECTED, now := "t2" }])
      "r1") ∧
    getResolutionMemory [] "unknown" =
      { ruleId := "unknown", totalApplications := 0, acceptedCount := 0,
        rejectedCount := 0, lastUsed := none, history := [] } := by
  constructor
  · have h := claim_C7_resolutionMemory.1
      [{ ruleId := "r1", invoiceId := "i1", outcome := Outcome.ACCEPTED, now := "t1" },
       { ruleId := "r1", invoiceId := "i2", outcome := Outcome.REJECTED, now := "t2" }]
      "r1"
    unfold getResolutionMemory
    cases hl : alookup (applyResolutionOps
      [{ ruleId := "r1", invoiceId := "i1", outcome := Outcome.ACCEPTED, now := "t1" },
       { ruleId := "r1", invoiceId := "i2", outcome := Outcome.REJECTED, now := "t2" }]) "r1" with
    | none => exact ⟨by simp, by simp⟩
    | some m => exact h m hl
  · exact claim_C7_resolutionMemory.2.2 [] "unknown" rfl

/-- C6: rule evaluation never raises an exception to its caller — any
evaluation error makes `executeRule` return null; `regexExtract` returns
null and `regexTest` returns false on a malformed pattern or missing
input; and a rule whose evaluation fails is a no-op that never aborts
the processing of the other rules (removing it from the rule list leaves
the fold unchanged). -/
theorem claim_C6_failClosed :
    (∀ (o : RegexOracle) (rule : Expr) (data : Val) (msg : String),
        evalRule o rule data = .error msg → executeRule o rule data = Val.null) ∧
    (∀ (o : RegexOracle) (pattern text : Val) (g : ℕ),
        (text.truthy = false ∨ pattern.truthy = false ∨ o.compile pattern.toDisplay = none) →
        regexExtractOp o pattern text g = Val.null) ∧
    (∀ (o : RegexOracle) (pattern text : Val),
        (text.truthy = false ∨ pattern.truthy = false ∨ o.compile pattern.toDisplay = none) →
        regexTestOp o pattern text = false) ∧
    (∀ (o : RegexOracle) (inv : Invoice) (resolutions : List (String × ResolutionMemory))
        (db : String → String → ℕ) (now : String) (st : ApplyState)
        (c : CorrectionMemory) (msg : String),
        evalRule o c.triggerCondition inv.toVal = .error msg →
        applyCorrectionStep o inv resolutions db now st c = st) ∧
    (∀ (o : RegexOracle) (inv : Invoice) (resolutions : List (String × ResolutionMemory))
        (db : String → String → ℕ) (now : String) (st : ApplyState)
        (pre post : List CorrectionMemory) (c : CorrectionMemory) (msg : String),
        evalRule o c.triggerCondition inv.toVal = .error msg →
        (pre ++ c :: post).foldl (applyCorrectionStep o inv resolutions db now) st =
          (pre ++ post).foldl (applyCorrectionStep o inv resolutions db now) st) := by
  have h1 : ∀ (o : RegexOracle) (rule : Expr) (data : Val) (msg : String),
      evalRule o rule data = .error msg → executeRule o rule data = Val.null := by
    intro o rule data msg h
    unfold executeRule
    rw [h]
  have h4 : ∀ (o : RegexOracle) (inv : Invoice) (resolutions : List (String × ResolutionMemory))
      (db : String → String → ℕ) (now : String) (st : ApplyState)
      (c : CorrectionMemory) (msg : String),
      evalRule o c.triggerCondition inv.toVal = .error msg →
      applyCorrectionStep o inv resolutions db now st c = st := by
    intro o inv resolutions db now st c msg h
    unfold applyCorrectionStep
    rw [h1 o _ _ _ h]
    simp [Val.truthy]
  refine ⟨h1, ?_, ?_, h4, ?_⟩
  · intro o pattern text g h
    unfold regexExtractOp
    rcases h with h | h | h
    · simp [h]
    · simp [h]
    · by_cases hf : !text.truthy || !pattern.truthy
      · simp [hf]
      · simp only [hf, if_neg, Bool.not_eq_true]
        rw [h]
  · intro o pattern text h
    unfold regexTestOp
    rcases h with h | h | h
    · simp [h]
    · simp [h]
    · by_cases hf : !text.truthy || !pattern.truthy
      · simp [hf]
      · simp only [hf, if_neg, Bool.not_eq_true]
        rw [h]
  · intro o inv resolutions db now st pre post c msg h
    rw [List.foldl_append, List.foldl_cons, h4 o inv resolutions db now _ c msg h,
      List.foldl_append]

/-- Witness for C6: a rule built on an unrecognised operation and a
pattern the engine rejects. -/
theorem claim_C6_witness :
    executeRule noRegex (.unknownOp "frobnicate" []) (Val.obj []) = Val.null ∧
    regexExtractOp noRegex (.str "(") (.str "some text") 1 = Val.null ∧
    regexTestOp noRegex (.str "(") (.str "some text") = false ∧
    ([{ id := "c1", triggerCondition := .unknownOp "frobnicate" [],
        action := .lit (.num 1), description := "d", confidence := 1 }] :
      List CorrectionMemory).foldl
        (applyCorrectionStep noRegex { id := "i", vendor := "v", invoiceNumber := "n" } []
          (fun _ _ => 0) "t")
        { proposals := [], auditTrail := [] } =
      { proposals := [], auditTrail := [] } := by
  refine ⟨?_, ?_, ?_, ?_⟩
  · exact claim_C6_failClosed.1 noRegex _ _ "Unrecognized operation frobnicate" rfl
  · exact claim_C6_failClosed.2.1 noRegex _ _ 1 (Or.inr (Or.inr rfl))
  · exact claim_C6_failClosed.2.2.1 noRegex _ _ (Or.inr (Or.inr rfl))
  · have := claim_C6_failClosed.2.2.2.2 noRegex
      { id := "i", vendor := "v", invoiceNumber := "n" } [] (fun _ _ => 0) "t"
      { proposals := [], auditTrail := [] } [] []
      { id := "c1", triggerCondition := .unknownOp "frobnicate" [],
        action := .lit (.num 1), description := "d", confidence := 1 }
      "Unrecognized operation frobnicate" rfl
    simpa using this

/-- Substring containment is transitive through an intermediate
string. -/
theorem strIncludes_mono (s t u : String) (h1 : strIncludes s t = true)
    (h2 : strIncludes t u = true) : strIncludes s u = true := by
  simp only [strIncludes, decide_eq_true_eq] at *
  exact h2.trans h1

theorem claim_C5_correctionFieldInference :
    (∀ action : Expr,
        extractFieldFromAction action = specExtractField action.stringify) ∧
    (∀ (o : RegexOracle) (inv : Invoice) (resolutions : List (String × ResolutionMemory))
        (db : String → String → ℕ) (now : String) (st : ApplyState)
        (c : CorrectionMemory) (f : String) (ex : FieldConfidence),
        extractFieldFromAction c.action = some f →
        alookup st.proposals f = some ex →
        c.confidence < ex.confidence →
        applyCorrectionStep o inv resolutions db now st c = st) := by
  constructor
  · intro action
    unfold extractFieldFromAction specExtractField specFieldPriority
    by_cases h1 : strIncludes action.stringify "tax"
    · simp [h1]
    · have h1' : strIncludes action.stringify "taxAmount" = false := by
        by_contra hc
        exact h1 (strIncludes_mono _ _ _ (Bool.of_not_eq_false hc) (by decide))
      by_cases h2 : strIncludes action.stringify "net"
      · simp [h1, h1', h2]
      · have h2' : strIncludes action.stringify "netAmount" = false := by
          by_contra hc
          exact h2 (strIncludes_mono _ _ _ (Bool.of_not_eq_false hc) (by decide))
        by_cases h3 : strIncludes action.stringify "total"
        · simp [h1, h1', h2, h2', h3]
        · have h3' : strIncludes action.stringify "totalAmount" = false := by
            by_contra hc
            exact h3 (strIncludes_mono _ _ _ (Bool.of_not_eq_false hc) (by decide))
          simp [h1, h1', h2, h2', h3, h3']
  · intro o inv resolutions db now st c f ex hf he hlt
    unfold applyCorrectionStep
    dsimp only
    by_cases htr : (executeRule o c.triggerCondition inv.toVal).truthy
    · rw [if_pos htr]
      cases hres : executeRule o c.action inv.toVal
      all_goals try rfl
      all_goals
        rw [hf]
        simp only [he, decide_eq_true_eq]
        rw [if_neg (not_lt.mpr (le_of_lt hlt))]
    · rw [if_neg htr]

/-- Witness for C5 at concrete inputs. -/
theorem claim_C5_witness :
    extractFieldFromAction (createArithmeticRule "inclusive_vat_19" "totalAmount") =
      specExtractField (createArithmeticRule "inclusive_vat_19" "totalAmount").stringify ∧
    applyCorrectionStep noRegex c5Invoice [] (fun _ _ => 0) "t"
        { proposals := [("netAmount", c5Existing)], auditTrail := [] } c5Correction =
      { proposals := [("netAmount", c5Existing)], auditTrail := [] } :=
  ⟨claim_C5_correctionFieldInference.1 (createArithmeticRule "inclusive_vat_19" "totalAmount"),
   claim_C5_correctionFieldInference.2 noRegex c5Invoice [] (fun _ _ => 0) "t"
     { proposals := [("netAmount", c5Existing)], auditTrail := [] } c5Correction
     "netAmount" c5Existing (by decide) rfl
     (by norm_num [c5Correction, c5Existing])⟩

/-- The rule-3 loop is the first-hit search of the spec. -/
theorem criticalFieldCheck_eq (output : List (String × Val))
    (proposals : List (String × FieldConfidence)) (l : List String) :
    criticalFieldCheck output proposals l =
      (l.find? (criticalFieldBad output proposals)).map criticalReasoning := by
  induction l with
  | nil => rfl
  | cons f rest ih =>
      show (if criticalFieldBad output proposals f then some (criticalReasoning f)
        else criticalFieldCheck output proposals rest) = _
      by_cases h : criticalFieldBad output proposals f
      · simp [h, List.find?_cons_of_pos]
      · rw [if_neg (by simpa using h), List.find?_cons_of_neg _ (by simpa using h)]
        exact ih

/-- The nested conditionals of `shouldEscalate` implement exactly the
ordered first-hit policy `specEscalate`. -/
theorem shouldEscalate_eq_spec (ctx : ProcessingContext) (output : List (String × Val))
    (conf : ℚ) (props : List (String × FieldConfidence)) (isDup : Bool) :
    shouldEscalate ctx output conf props isDup = specEscalate ctx output conf props isDup := by
  unfold shouldEscalate specEscalate
  by_cases hd : isDup
  · simp [hd, List.findSome?]
  · simp only [Bool.not_eq_true] at hd
    subst hd
    simp only [Bool.false_eq_true, if_false]
    by_cases hv : ctx.vendorMemory.isNone
    · simp [hv, List.findSome?]
    · simp only [Bool.not_eq_true] at hv
      rw [criticalFieldCheck_eq]
      cases h3 : (["totalAmount", "date", "vendor"].find?
          (criticalFieldBad output props)).map criticalReasoning with
      | some r =>
          simp [hv, specRule3, h3, List.findSome?]
      | none =>
          simp only [hv, specRule3, h3, Bool.false_eq_true, if_false]
          by_cases h4 : conf < 8/10
          · simp [h4, List.findSome?]
          · simp only [h4, if_neg, List.findSome?]
            cases hli : (alookup output "lineItems").getD Val.undefined with
            | arr xs =>
                simp only [specRule5, hli]
                by_cases hguard : xs.length > 0 ∧
                    ((alookup output "totalAmount").getD Val.undefined).truthy = true
                · rw [if_pos hguard, if_pos hguard]
                  cases htot : (alookup output "totalAmount").getD Val.undefined with
                  | num t =>
                      by_cases hfire : |t - lineItemSumOf xs| > 1/100 ∧ lineItemSumOf xs > 0
                      · have hfire₁ : (100:ℚ)⁻¹ < |t - lineItemSumOf xs| := by
                          simpa using hfire.1
                        simp [htot, List.findSome?, hfire₁, hfire.2]
                      · have hfire₂ : ¬((100:ℚ)⁻¹ < |t - lineItemSumOf xs| ∧
                            0 < lineItemSumOf xs) := by simpa using hfire
                        simp [htot, List.findSome?, hfire₂]
                  | _ => simp [htot, List.findSome?, h4]
                · rw [if_neg hguard, if_neg hguard]
                  simp [List.findSome?, h4]
            | _ =>
                simp [specRule5, hli, List.findSome?, h4]

/-- C1 (corrected): `decide` evaluates the five escalation rules in the
fixed priority order — recorded duplicate fingerprint; no vendor memory;
critical field among totalAmount, date, vendor falsy or proposal
confidence < 0.90; overall confidence < 0.80; amount mismatch — with
first-hit -wins short-circuit semantics and auto-approval when no rule
fires, where rule 5 additionally requires the line-item sum to be
positive (the amendment forced by the counterexample). -/
theorem claim_C1_escalationPolicy :
    (∀ (ctx : ProcessingContext) (output : List (String × Val)) (conf : ℚ)
        (props : List (String × FieldConfidence)) (isDup : Bool),
        shouldEscalate ctx output conf props isDup =
          specEscalate ctx output conf props isDup) ∧
    (∀ (ctx : ProcessingContext) (props : List (String × FieldConfidence))
        (now : String) (st : ProcessedStore),
        (decideFn ctx props now st).1.requiresHumanReview =
          (specEscalate ctx (buildOutputAndConfidences ctx.invoice props).1
            (meanOrZero (buildOutputAndConfidences ctx.invoice props).2) props
            (isDuplicate st (generateInvoiceFingerprint ctx.invoice.vendor
              ctx.invoice.invoiceNumber ctx.invoice.date ctx.invoice.totalAmount))).1) := by
  refine ⟨shouldEscalate_eq_spec, ?_⟩
  intro ctx props now st
  unfold decideFn
  dsimp only
  rw [shouldEscalate_eq_spec]

/-- C1 counterexample: on this invoice no earlier escalation rule fires,
line items and totalAmount are both present in the merged output, and
|totalAmount − Σ lineItem.amount| = |100 − 0| > 0.01, yet decide
auto-approves because the line-item sum is not positive — refuting the
claim's final universal sentence. -/
theorem claim_C1_counterexample :
    (decideFn c1Context c1Proposals "t" []).1.requiresHumanReview = false ∧
    alookup (decideFn c1Context c1Proposals "t" []).1.output "lineItems" =
      some (Val.arr [Val.obj [("amount", Val.num 0)]]) ∧
    alookup (decideFn c1Context c1Proposals "t" []).1.output "totalAmount" =
      some (Val.num 100) ∧
    |(100 : ℚ) - lineItemSumOf [Val.obj [("amount", Val.num 0)]]| > 1/100 := by
  have hbuilt : buildOutputAndConfidences c1Invoice c1Proposals =
      ([("invoiceId", Val.str "I1"), ("vendor", Val.str "V"), ("invoiceNumber", Val.str "N1"),
        ("totalAmount", Val.num 100), ("date", Val.str "2023-01-01"),
        ("lineItems", Val.arr [Val.obj [("amount", Val.num 0)]])],
       [95/100, 95/100, 7/10]) := by
    simp [buildOutputAndConfidences, decideFields, aset, alookup, c1Invoice, c1Proposals,
      Invoice.get, Val.isUndefined, mergeFieldStep, applyProposalStep]
  have hsum : lineItemSumOf [Val.obj [("amount", Val.num 0)]] = 0 := by
    simp [lineItemSumOf, itemAmount, alookup]
  have hctx : c1Context.invoice = c1Invoice := rfl
  refine ⟨?_, ?_, ?_, ?_⟩
  · have hconf : meanOrZero [(95:ℚ)/100, 95/100, 7/10] = 13/15 := by
      norm_num [meanOrZero]
    have hlt1 : ¬((95:ℚ)/100 < 9/10) := by norm_num
    have hlt2 : ¬((13:ℚ)/15 < 8/10) := by norm_num
    have htruthy : (Val.num 100).truthy = true := by
      simp [Val.truthy]
    unfold decideFn
    dsimp only
    rw [shouldEscalate_eq_spec, hctx, hbuilt]
    simp only [specEscalate, specRule3, criticalFieldBad, specRule5, alookup, isDuplicate,
      List.findSome?, List.find?, c1Context, c1Proposals, hconf, hsum, htruthy]
    have h100 : ((100:ℚ) != 0) = true := by
      rw [bne_iff_ne]
      norm_num
    simp [hlt1, hlt2, Val.truthy, lineItemSumOf, itemAmount, alookup, hsum, h100]
  · unfold decideFn
    dsimp only
    rw [hctx, hbuilt]
    simp [alookup]
  · unfold decideFn
    dsimp only
    rw [hctx, hbuilt]
    simp [alookup]
  · rw [hsum]
    norm_num

/-- When some critical field of the merged output is falsy, the policy
always escalates, whichever of rules 1-3 fires first. -/
theorem specEscalate_true_of_bad (ctx : ProcessingContext) (output : List (String × Val))
    (conf : ℚ) (props : List (String × FieldConfidence)) (isDup : Bool) (f : String)
    (hf : f ∈ ["totalAmount", "date", "vendor"])
    (hbad : ((alookup output f).getD Val.undefined).truthy = false) :
    (specEscalate ctx output conf props isDup).1 = true := by
  unfold specEscalate
  cases hfs : [if isDup then some dupReasoning else none,
      if ctx.vendorMemory.isNone then some newVendorReasoning else none,
      specRule3 output props,
      if conf < 8/10 then some (confReasoning conf) else none,
      specRule5 output].findSome? id with
  | some r => rfl
  | none =>
      exfalso
      have hall := List.findSome?_eq_none_iff.mp hfs
      have h3 : specRule3 output props = none := by
        have := hall (specRule3 output props) (by simp)
        simpa using this
      unfold specRule3 at h3
      have hfind : List.find? (criticalFieldBad output props)
          ["totalAmount", "date", "vendor"] = none := by
        cases hx : List.find? (criticalFieldBad output props)
            ["totalAmount", "date", "vendor"] with
        | none => rfl
        | some v =>
            rw [hx] at h3
            simp at h3
      have hnotbad := List.find?_eq_none.mp hfind f hf
      rw [criticalFieldBad, hbad] at hnotbad
      simp at hnotbad

/-- C10 (implicit): for every call to decide in which the merged output's
totalAmount, date, or vendor is falsy (0, empty string, null, or
absent), the returned contract has requiresHumanReview = true — a falsy
critical field is never auto-approved. -/
theorem claim_C10_falsyCriticalField :
    ∀ (ctx : ProcessingContext) (props : List (String × FieldConfidence))
      (now : String) (st : ProcessedStore),
      (((alookup (buildOutputAndConfidences ctx.invoice props).1 "totalAmount").getD
          Val.undefined).truthy = false ∨
       ((alookup (buildOutputAndConfidences ctx.invoice props).1 "date").getD
          Val.undefined).truthy = false ∨
       ((alookup (buildOutputAndConfidences ctx.invoice props).1 "vendor").getD
          Val.undefined).truthy = false) →
      (decideFn ctx props now st).1.requiresHumanReview = true := by
  intro ctx props now st h
  unfold decideFn
  dsimp only
  rw [shouldEscalate_eq_spec]
  rcases h with h | h | h
  · exact specEscalate_true_of_bad _ _ _ _ _ "totalAmount" (by simp) h
  · exact specEscalate_true_of_bad _ _ _ _ _ "date" (by simp) h
  · exact specEscalate_true_of_bad _ _ _ _ _ "vendor" (by simp) h

/-- Witness for C10: an invoice with no totalAmount at all. -/
theorem claim_C10_witness :
    (decideFn c10Context [] "t" []).1.requiresHumanReview = true :=
  claim_C10_falsyCriticalField c10Context [] "t" [] (Or.inl rfl)

/-- decide never removes a recorded fingerprint. -/
theorem mem_decideStep_mono (st : ProcessedStore) (call : DecideCall) (fp : String)
    (h : fp ∈ st) : fp ∈ decideStep st call := by
  unfold decideStep decideFn
  dsimp only
  split
  · exact h
  · unfold recordProcessedInvoice
    split
    · exact h
    · exact List.mem_cons_of_mem _ h

/-- After a decide call the invoice's fingerprint is recorded, whether or
not the call itself escalated. -/
theorem self_mem_decideStep (st : ProcessedStore) (call : DecideCall) :
    callFingerprint call ∈ decideStep st call := by
  unfold decideStep decideFn callFingerprint
  dsimp only
  split
  · rename_i hdup
    unfold isDuplicate at hdup
    simpa using hdup
  · unfold recordProcessedInvoice
    split
    · rename_i hc
      simpa using hc
    · exact List.mem_cons_self _ _

/-- A recorded fingerprint survives any further sequence of decide
calls. -/
theorem mem_foldl_decideStep (mid : List DecideCall) (st : ProcessedStore) (fp : String)
    (h : fp ∈ st) : fp ∈ mid.foldl decideStep st := by
  induction mid generalizing st with
  | nil => exact h
  | cons c rest ih => exact ih _ (mem_decideStep_mono st c fp h)

/-- C2: once decide has processed invoice A, every later decide call on
an invoice B sharing A's (vendor, invoiceNumber, date, totalAmount) —
whatever other decide calls happened in between, and whatever B's line
items or raw text are — returns requiresHumanReview = true with the
duplicate-invoice reasoning, because the fingerprint of a
not-yet-recorded invoice is persisted regardless of whether that first
call itself escalated. -/
theorem claim_C2_duplicateDetection :
    ∀ (st₀ : ProcessedStore) (callA : DecideCall) (mid : List DecideCall)
      (callB : DecideCall),
      callB.ctx.invoice.vendor = callA.ctx.invoice.vendor →
      callB.ctx.invoice.invoiceNumber = callA.ctx.invoice.invoiceNumber →
      callB.ctx.invoice.date = callA.ctx.invoice.date →
      callB.ctx.invoice.totalAmount = callA.ctx.invoice.totalAmount →
      (decideFn callB.ctx callB.proposals callB.now
          (mid.foldl decideStep (decideStep st₀ callA))).1.requiresHumanReview = true ∧
      (decideFn callB.ctx callB.proposals callB.now
          (mid.foldl decideStep (decideStep st₀ callA))).1.reasoning = dupReasoning := by
  intro st₀ callA mid callB hv hn hd ht
  have hfp : callFingerprint callB = callFingerprint callA := by
    unfold callFingerprint
    rw [hv, hn, hd, ht]
  have hmem : callFingerprint callB ∈ mid.foldl decideStep (decideStep st₀ callA) := by
    rw [hfp]
    exact mem_foldl_decideStep mid _ _ (self_mem_decideStep st₀ callA)
  have hdup : isDuplicate (mid.foldl decideStep (decideStep st₀ callA))
      (callFingerprint callB) = true := by
    unfold isDuplicate
    simpa using hmem
  constructor <;>
    · unfold decideFn
      dsimp only
      rw [show generateInvoiceFingerprint callB.ctx.invoice.vendor
          callB.ctx.invoice.invoiceNumber callB.ctx.invoice.date
          callB.ctx.invoice.totalAmount = callFingerprint callB from rfl, hdup]
      simp [shouldEscalate]

/-- Witness for C2: the same fingerprint tuple resubmitted with
different line items. -/
theorem claim_C2_witness :
    (decideFn c2CallB.ctx c2CallB.proposals c2CallB.now
        (([] : List DecideCall).foldl decideStep (decideStep [] c2CallA))).1.requiresHumanReview =
      true ∧
    (decideFn c2CallB.ctx c2CallB.proposals c2CallB.now
        (([] : List DecideCall).foldl decideStep (decideStep [] c2CallA))).1.reasoning =
      dupReasoning :=
  claim_C2_duplicateDetection [] c2CallA [] c2CallB rfl rfl rfl rfl

/-- Key presence after one object write. -/
theorem alookup_aset_isSome {α : Type} (m : List (String × α)) (k f : String) (v : α) :
    (alookup (aset m k v) f).isSome = (decide (k = f) || (alookup m f).isSome) := by
  by_cases h : k = f
  · subst h
    rw [alookup_aset_self]
    simp
  · rw [alookup_aset_ne _ _ _ _ (fun hc => h hc.symm)]
    simp [h]

/-- Key presence after the proposal-application fold. -/
theorem propsFold_fst_isSome (props : List (String × FieldConfidence))
    (init : List (String × Val)) (cs : List ℚ) (f : String) :
    (alookup (props.foldl applyProposalStep (init, cs)).1 f).isSome =
      ((alookup init f).isSome || props.any (fun e => decide (e.1 = f))) := by
  induction props generalizing init cs with
  | nil => simp
  | cons e rest ih =>
      rw [List.foldl_cons]
      show (alookup (rest.foldl applyProposalStep (aset init e.1 e.2.value, _)).1 f).isSome = _
      rw [ih, alookup_aset_isSome]
      simp [Bool.or_assoc, Bool.or_comm, Bool.or_left_comm]

/-- The confidences pushed by the proposal loop are exactly the proposal
confidences. -/
theorem propsFold_snd (props : List (String × FieldConfidence))
    (init : List (String × Val)) (cs : List ℚ) :
    (props.foldl applyProposalStep (init, cs)).2 =
      cs ++ props.map (fun e => e.2.confidence) := by
  induction props generalizing init cs with
  | nil => simp
  | cons e rest ih =>
      rw [List.foldl_cons]
      show (rest.foldl applyProposalStep (aset init e.1 e.2.value, cs ++ [e.2.confidence])).2 = _
      rw [ih]
      simp

/-- The confidences pushed by the field-merge loop over distinct fields,
as a function of the pre-merge output record. -/
theorem mergeFold_snd (inv : Invoice) (fs : List String) (out : List (String × Val))
    (cs : List ℚ) (hnd : fs.Nodup) :
    (fs.foldl (mergeFieldStep inv) (out, cs)).2 =
      cs ++ fs.filterMap (fun f =>
        if (alookup out f).isNone && !(inv.get f).isUndefined then
          some ((match inv.get f with
            | .null => 0
            | .undefined => 0
            | _ => 7/10 : ℚ))
        else none) := by
  induction fs generalizing out cs with
  | nil => simp
  | cons f rest ih =>
      rw [List.foldl_cons]
      have hndr := (List.nodup_cons.mp hnd).2
      have hfnotin := (List.nodup_cons.mp hnd).1
      by_cases hc : (alookup out f).isNone && !(inv.get f).isUndefined
      · rw [show mergeFieldStep inv (out, cs) f =
            (aset out f (inv.get f), cs ++ [(match inv.get f with
              | Val.null => 0
              | Val.undefined => 0
              | _ => 7/10 : ℚ)]) from by rw [mergeFieldStep, if_pos hc]]
        rw [ih _ _ hndr]
        rw [List.filterMap_congr (f := fun g =>
            if (alookup (aset out f (inv.get f)) g).isNone && !(inv.get g).isUndefined then
              some ((match inv.get g with
                | Val.null => 0
                | Val.undefined => 0
                | _ => 7/10 : ℚ))
            else none)
          (g := fun g =>
            if (alookup out g).isNone && !(inv.get g).isUndefined then
              some ((match inv.get g with
                | Val.null => 0
                | Val.undefined => 0
                | _ => 7/10 : ℚ))
            else none)
          (by
            intro g hg
            have hgne : g ≠ f := fun h => hfnotin (h ▸ hg)
            simp only [alookup_aset_ne out f g (inv.get f) hgne])]
        simp [List.filterMap_cons, hc]
      · rw [show mergeFieldStep inv (out, cs) f = (out, cs) from by
          rw [mergeFieldStep, if_neg hc]]
        rw [ih _ _ hndr]
        simp [List.filterMap_cons, hc]

/-- Key presence as an existence check over the entry list. -/
theorem alookup_isSome_any {α : Type} (l : List (String × α)) (f : String) :
    (alookup l f).isSome = l.any (fun e => decide (e.1 = f)) := by
  induction l with
  | nil => rfl
  | cons e rest ih =>
      obtain ⟨k, v⟩ := e
      by_cases h : k = f
      · simp [alookup, h]
      · simp [alookup, h, ih]

/-- No field of the merge set collides with the three fixed output
keys. -/
theorem decideFields_not_fixed (inv : Invoice) (f : String) (hf : f ∈ decideFields) :
    alookup [("invoiceId", Val.str inv.id), ("vendor", Val.str inv.vendor),
      ("invoiceNumber", Val.str inv.invoiceNumber)] f = none := by
  fin_cases hf <;> rfl

/-- C4 (corrected): the output's confidence is the arithmetic mean of
the proposal confidences together with the merge contributions of the
fixed field set, where a field not covered by a proposal contributes
0.70 when its raw value is present and non-null and 0.0 when it is
present but null — a field whose raw value is absent (undefined) is
skipped entirely and contributes no value (the amendment forced by the
counterexample); the mean of an empty collection is 0.0. -/
theorem claim_C4_overallConfidence :
    (∀ (ctx : ProcessingContext) (props : List (String × FieldConfidence))
        (now : String) (st : ProcessedStore),
        (decideFn ctx props now st).1.confidence =
          meanOrZero (props.map (fun e => e.2.confidence) ++
            decideFields.filterMap (fun f =>
              if (alookup props f).isSome then none
              else
                match ctx.invoice.get f with
                | .undefined => none
                | .null => some (0 : ℚ)
                | _ => some (7/10 : ℚ)))) ∧
    meanOrZero [] = 0 := by
  constructor
  · intro ctx props now st
    unfold decideFn
    dsimp only
    unfold buildOutputAndConfidences
    dsimp only
    rw [mergeFold_snd _ _ _ _ (by decide), propsFold_snd]
    simp only [List.nil_append]
    congr 1
    congr 1
    apply List.filterMap_congr
    intro f hf
    have hnone : (alookup (props.foldl applyProposalStep
        ([("invoiceId", Val.str ctx.invoice.id), ("vendor", Val.str ctx.invoice.vendor),
          ("invoiceNumber", Val.str ctx.invoice.invoiceNumber)], [])).1 f).isNone =
        !(alookup props f).isSome := by
      rw [show ∀ (x : Option Val), x.isNone = !x.isSome from fun x => by cases x <;> rfl]
      rw [propsFold_fst_isSome, decideFields_not_fixed ctx.invoice f hf,
        alookup_isSome_any]
      simp
    simp only [hnone]
    by_cases hp : (alookup props f).isSome
    · simp [hp]
    · simp only [Bool.not_eq_true] at hp
      rw [hp]
      cases hval : ctx.invoice.get f <;> simp [Val.isUndefined]
  · rfl

/-- C4 counterexample: with one full-confidence proposal and an invoice
whose nine other merge fields are absent, decide's confidence is 1 (the
absent fields contribute nothing), while the claimed computation —
absent fields contribute 0.0 — yields 1/10. -/
theorem claim_C4_counterexample :
    (decideFn c4Context c4Props "t" []).1.confidence = 1 ∧
    claimOverallConfidence c4Invoice c4Props = 1/10 ∧
    (1 : ℚ) ≠ 1/10 := by
  refine ⟨?_, ?_, by norm_num⟩
  · unfold decideFn
    dsimp only
    simp [buildOutputAndConfidences, applyProposalStep, mergeFieldStep, decideFields,
      aset, alookup, c4Context, c4Invoice, c4Props, Invoice.get, Val.isUndefined, meanOrZero]
  · simp [claimOverallConfidence, decideFields, alookup, c4Props, c4Invoice,
      Invoice.get, meanOrZero]

/-- The diff of structurally equal values is empty. -/
theorem diffAnyF_eq_nil (n : ℕ) (p : String) (a b : Val) (hn : 0 < n)
    (h : Val.beq a b = true) : diffAnyF n p a b = [] := by
  cases n with
  | zero => exact absurd hn (by simp)
  | succ m =>
      unfold diffAnyF
      rw [h]
      simp

/-- `computeDiff` on equal records is empty. -/
theorem computeDiff_self (x : Val) : computeDiff x x = [] := by
  unfold computeDiff
  exact diffAnyF_eq_nil _ _ _ _ (by omega) (Val.beq_refl x)

/-- Every extracted change comes from an add or replace operation of the
patch, keyed by its path without the leading slash and carrying its
value. -/
theorem extractChanges_mem (patch : List PatchOp) (e : String × Val)
    (h : e ∈ extractChanges patch) :
    ∃ op ∈ patch, (op.op = OpKind.add ∨ op.op = OpKind.replace) ∧
      e.1 = op.path.drop 1 ∧ e.2 = op.value.getD Val.undefined := by
  have key : ∀ (ps : List PatchOp) (acc : List (String × Val)),
      e ∈ ps.foldl (fun changes op =>
        match op.op with
        | OpKind.replace => aset changes (op.path.drop 1) (op.value.getD Val.undefined)
        | OpKind.add => aset changes (op.path.drop 1) (op.value.getD Val.undefined)
        | _ => changes) acc →
      e ∈ acc ∨ ∃ op ∈ ps, (op.op = OpKind.add ∨ op.op = OpKind.replace) ∧
        e.1 = op.path.drop 1 ∧ e.2 = op.value.getD Val.undefined := by
    intro ps
    induction ps with
    | nil => intro acc h; exact Or.inl h
    | cons op rest ih =>
        intro acc h
        rw [List.foldl_cons] at h
        rcases ih _ h with h₂ | ⟨op₂, hmem, hkind, hp, hv⟩
        · cases hop : op.op with
          | add =>
              rw [hop] at h₂
              rcases mem_aset _ _ _ _ h₂ with h₃ | h₃
              · exact Or.inr ⟨op, List.mem_cons_self _ _, Or.inl hop,
                  by rw [h₃], by rw [h₃]⟩
              · exact Or.inl h₃
          | replace =>
              rw [hop] at h₂
              rcases mem_aset _ _ _ _ h₂ with h₃ | h₃
              · exact Or.inr ⟨op, List.mem_cons_self _ _, Or.inr hop,
                  by rw [h₃], by rw [h₃]⟩
              · exact Or.inl h₃
          | remove =>
              rw [hop] at h₂
              exact Or.inl h₂
        · exact Or.inr ⟨op₂, List.mem_cons_of_mem _ hmem, hkind, hp, hv⟩
  rcases key patch [] h with h₂ | h₂
  · exact absurd h₂ (List.not_mem_nil e)
  · exact h₂

/-- C8: `induceRules(x, x)` returns empty vendor and correction rule
lists without signalling an error; more generally, whenever every add-
or replace-type leaf of the structural diff carries a value structurally
equal to the system output's value at that path, both rule lists come
back empty and no error is raised. -/
theorem claim_C8_identityInduction :
    (∀ (x : Invoice) (o : RegexOracle) (genId : String → String) (now : String),
        induceRules x x o genId now =
          .ok { vendorRules := [], correctionRules := [] }) ∧
    (∀ (so hc : Invoice) (o : RegexOracle) (genId : String → String) (now : String),
        (∀ op ∈ computeDiff so.toVal hc.toVal,
          (op.op = OpKind.add ∨ op.op = OpKind.replace) →
          Val.beq (getFieldValue so.toVal (op.path.drop 1)) (op.value.getD Val.undefined) = true) →
        induceRules so hc o genId now =
          .ok { vendorRules := [], correctionRules := [] }) := by
  have skipAll : ∀ (so : Invoice) (o : RegexOracle) (genId : String → String) (now : String)
      (changes : List (String × Val)),
      (∀ e ∈ changes, Val.beq (getFieldValue so.toVal e.1) e.2 = true) →
      ∀ (init : InductionResult),
      changes.foldlM (fun result fv =>
        if Val.beq (getFieldValue so.toVal fv.1) fv.2 then pure result
        else induceForChange so o genId now result fv.1 fv.2) init = .ok init := by
    intro so o genId now changes
    induction changes with
    | nil => intro h init; rfl
    | cons e rest ih =>
        intro h init
        rw [List.foldlM_cons, if_pos (h e (List.mem_cons_self _ _))]
        exact ih (fun x hx => h x (List.mem_cons_of_mem _ hx)) init
  have general : ∀ (so hc : Invoice) (o : RegexOracle) (genId : String → String)
      (now : String),
      (∀ op ∈ computeDiff so.toVal hc.toVal,
        (op.op = OpKind.add ∨ op.op = OpKind.replace) →
        Val.beq (getFieldValue so.toVal (op.path.drop 1)) (op.value.getD Val.undefined) = true) →
      induceRules so hc o genId now = .ok { vendorRules := [], correctionRules := [] } := by
    intro so hc o genId now h
    unfold induceRules
    by_cases hlen : (computeDiff so.toVal hc.toVal).length = 0
    · simp [hlen]
    · simp only [hlen, if_neg, if_false]
      apply skipAll
      intro e he
      obtain ⟨op, hmem, hkind, hp, hv⟩ := extractChanges_mem _ _ he
      rw [hp, hv]
      exact h op hmem hkind
  refine ⟨?_, general⟩
  intro x o genId now
  apply general
  intro op hmem
  rw [computeDiff_self] at hmem
  exact absurd hmem (List.not_mem_nil op)

/-- Witness for C8 on a concrete invoice diffed against itself. -/
theorem claim_C8_witness :
    induceRules c8Invoice c8Invoice noRegex (fun s => s) "t" =
      .ok { vendorRules := [], correctionRules := [] } :=
  claim_C8_identityInduction.2 c8Invoice c8Invoice noRegex (fun s => s) "t"
    (by
      intro op hmem
      rw [computeDiff_self] at hmem
      exact absurd hmem (List.not_mem_nil op))

/-- A key bound to `sku` stays bound to `sku` through the token
insertion fold (every insertion writes `sku`). -/
theorem tokenFold_preserve (sku : String) (tokens : List String)
    (m : List (String × String)) (k : String) (h : alookup m k = some sku) :
    alookup (tokens.foldl
      (fun m token => if token.length > 3 then aset m token sku else m) m) k = some sku := by
  induction tokens generalizing m with
  | nil => exact h
  | cons t ts ih =>
      rw [List.foldl_cons]
      apply ih
      by_cases ht : t.length > 3
      · rw [if_pos ht]
        by_cases hk : k = t
        · subst hk
          exact alookup_aset_self m k sku
        · rw [alookup_aset_ne _ _ _ _ hk]
          exact h
      · rw [if_neg ht]
        exact h

/-- Every token longer than three characters ends up bound to `sku`. -/
theorem tokenFold_mem (sku : String) (tokens : List String)
    (m : List (String × String)) (tok : String) (hmem : tok ∈ tokens)
    (hlen : tok.length > 3) :
    alookup (tokens.foldl
      (fun m token => if token.length > 3 then aset m token sku else m) m) tok = some sku := by
  induction tokens generalizing m with
  | nil => exact absurd hmem (List.not_mem_nil tok)
  | cons t ts ih =>
      rw [List.foldl_cons]
      rcases List.mem_cons.mp hmem with h | h
      · subst h
        exact tokenFold_preserve sku ts _ tok (by rw [if_pos hlen, alookup_aset_self])
      · exact ih _ h

/-- The exact-match pass is the first-hit search over the keys. -/
theorem mapLookupExact_eq_find (normalized : String) (mapping : List (String × String)) :
    mapLookupExact normalized mapping =
      (mapping.find? (fun kv => normalized == kv.1.toLower)).map (fun kv => kv.2) := by
  induction mapping with
  | nil => rfl
  | cons kv rest ih =>
      obtain ⟨k, v⟩ := kv
      unfold mapLookupExact
      by_cases h : normalized = k.toLower
      · rw [if_pos h, List.find?_cons_of_pos _ (by simpa using h)]
        rfl
      · rw [if_neg h, List.find?_cons_of_neg _ (by simpa using h)]
        exact ih

/-- The substring pass is the first-hit search over the keys. -/
theorem mapLookupSub_eq_find (normalized : String) (mapping : List (String × String)) :
    mapLookupSub normalized mapping =
      (mapping.find? (fun kv => strIncludes normalized kv.1.toLower)).map (fun kv => kv.2) := by
  induction mapping with
  | nil => rfl
  | cons kv rest ih =>
      obtain ⟨k, v⟩ := kv
      unfold mapLookupSub
      by_cases h : strIncludes normalized k.toLower = true
      · rw [if_pos h, List.find?_cons_of_pos _ (by simpa using h)]
        rfl
      · rw [if_neg (by simpa using h), List.find?_cons_of_neg _ (by simpa using h)]
        exact ih

/-- C9 (corrected): for every non-empty line-item description and
non-empty corrected SKU (the amendment: empty inputs produce no rule at
all), mapping induction emits a MAP-kind VendorPattern whose lookup
table maps the lowercased full description and every lowercased
whitespace token longer than three characters to the SKU; at apply time
the lookup tries an exact case-insensitive match against the keys first,
else the first key (in insertion order) contained in the normalised
description, else null; and a mapDescription payload normalises its
subject with toLowerCase().trim() before the lookup. -/
theorem claim_C9_mappingInduction :
    (∀ (field description sku now : String), description ≠ "" → sku ≠ "" →
      ∃ mapping, induceMapping field description sku now = some
          { ruleType := "MAP",
            logic := createMapRule mapping (jsReplaceFirst field ".sku" ".description"),
            confidence := 85/100, sampleEvidence := some description, createdAt := now } ∧
        alookup mapping description.toLower = some sku ∧
        (∀ tok ∈ jsSplitWs description.toLower, tok.length > 3 →
          alookup mapping tok = some sku)) ∧
    (∀ (normalized : String) (mapping : List (String × String)),
      mapDescriptionOp normalized mapping =
        match mapping.find? (fun kv => normalized == kv.1.toLower) with
        | some kv => Val.str kv.2
        | none =>
            match mapping.find? (fun kv => strIncludes normalized kv.1.toLower) with
            | some kv => Val.str kv.2
            | none => Val.null) ∧
    (∀ (o : RegexOracle) (mapping : List (String × String)) (srcField d : String)
        (data : Val), varLookup srcField data = Val.str d → d ≠ "" →
      evalRule o (createMapRule mapping srcField) data =
        .ok (mapDescriptionOp d.toLower.trim mapping)) := by
  refine ⟨?_, ?_, ?_⟩
  · intro field description sku now hd hs
    unfold induceMapping
    rw [if_neg (by simp [hd, hs])]
    refine ⟨_, rfl, ?_, ?_⟩
    · exact tokenFold_preserve sku _ _ _ (alookup_aset_self _ _ _)
    · intro tok hmem hlen
      exact tokenFold_mem sku _ _ tok hmem hlen
  · intro normalized mapping
    unfold mapDescriptionOp
    rw [mapLookupExact_eq_find, mapLookupSub_eq_find]
    cases mapping.find? (fun kv => normalized == kv.1.toLower) with
    | some kv => rfl
    | none =>
        cases mapping.find? (fun kv => strIncludes normalized kv.1.toLower) with
        | some kv => rfl
        | none => rfl
  · intro o mapping srcField d data hvar hd
    unfold createMapRule evalRule
    have hv2 : evalRule o (Expr.varE srcField) data = .ok (Val.str d) := by
      unfold evalRule
      rw [hvar]
    rw [hv2]
    show (if (!(Val.str d).truthy) = true then (Except.ok Val.null : Except String Val)
      else Except.ok (mapDescriptionOp d.toLower.trim mapping)) = _
    rw [if_neg (by simp [Val.truthy, hd])]

/-- C9 counterexample: with an empty description, mapping induction
emits no VendorPattern at all, while the claim promises a MAP rule for
every description and SKU. -/
theorem claim_C9_counterexample :
    induceMapping "lineItems/0/sku" "" "FREIGHT" "t" = none := rfl

/-- Witness for C9 at the Seefracht example. -/
theorem claim_C9_witness :
    (∃ mapping, induceMapping "lineItems/0/sku" "Seefracht Hamburg-NY" "FREIGHT" "t" = some
        { ruleType := "MAP",
          logic := createMapRule mapping
            (jsReplaceFirst "lineItems/0/sku" ".sku" ".description"),
          confidence := 85/100, sampleEvidence := some "Seefracht Hamburg-NY",
          createdAt := "t" } ∧
      alookup mapping "Seefracht Hamburg-NY".toLower = some "FREIGHT" ∧
      (∀ tok ∈ jsSplitWs "Seefracht Hamburg-NY".toLower, tok.length > 3 →
        alookup mapping tok = some "FREIGHT")) ∧
    mapDescriptionOp "neue seefracht rotterdam" c9Mapping =
      match c9Mapping.find? (fun kv => "neue seefracht rotterdam" == kv.1.toLower) with
      | some kv => Val.str kv.2
      | none =>
          match c9Mapping.find? (fun kv =>
              strIncludes "neue seefracht rotterdam" kv.1.toLower) with
          | some kv => Val.str kv.2
          | none => Val.null :=
  ⟨claim_C9_mappingInduction.1 "lineItems/0/sku" "Seefracht Hamburg-NY" "FREIGHT" "t"
      (by decide) (by decide),
   claim_C9_mappingInduction.2.1 "neue seefracht rotterdam" c9Mapping⟩

end DocProc
